import Mathlib

/-!
Verification development for the `todoist2org` library
(`src/todoist2org.py`): generation of Org mode headings from Todoist
projects, sections and items.

The Python code is shallowly embedded: Python dicts become association
lookups (last binding wins, as in dict comprehensions), Python lists
become `List`, `None`-able values become `Option`, and statements that can
raise (`KeyError` on a dict lookup, `RecursionError` on unbounded
recursion) become `Except ConvErr`.  Python's recursion (which is limited
only by the interpreter's stack) is modelled with an explicit fuel
parameter; all results are stated for sufficiently large fuel or are
fuel-generic.  `get_org_timestamp` performs timezone conversion through
the host's tz database, so heading generators are parameterised by an
abstract timestamp formatter `TZFormatter` standing for it; every theorem
below quantifies over that formatter.
-/

namespace Todoist

/-- One conversion-time error: a failed dict lookup (Python `KeyError`,
string-keyed), a failed priority lookup (Python `KeyError` with an int
key, the spec's InvalidPriority condition) or exhausted recursion depth
(Python `RecursionError`). -/
inductive ConvErr where
  | keyError (key : String)
  | priorityKeyError (p : Nat)
  | recursionError
deriving DecidableEq

/-- Decidable equality of `Except` results, for concrete evaluation of
generator outcomes in witnesses and counterexamples. -/
instance exceptDecidableEq {ε α : Type _} [DecidableEq ε] [DecidableEq α] :
    DecidableEq (Except ε α)
  | .ok a, .ok b =>
    if h : a = b then .isTrue (by rw [h]) else .isFalse (by simp [h])
  | .ok _, .error _ => .isFalse (by simp)
  | .error _, .ok _ => .isFalse (by simp)
  | .error e, .error f =>
    if h : e = f then .isTrue (by rw [h]) else .isFalse (by simp [h])

/-- Todoist project record (the fields `todoist2org.py` reads). -/
structure Project where
  id : String
  name : String
  parent_id : Option String
  is_archived : Bool
deriving DecidableEq

/-- Todoist section record (the fields `todoist2org.py` reads). -/
structure Section where
  id : String
  project_id : String
  section_order : Int
  added_at : String
  is_archived : Bool
  name : String
deriving DecidableEq

/-- The `due` sub-record of an item. -/
structure DueInfo where
  date : String
  timezone : Option String
  is_recurring : Bool
  string : String
deriving DecidableEq

/-- Todoist item record (the fields `todoist2org.py` reads). -/
structure Item where
  id : String
  project_id : String
  section_id : Option String
  parent_id : Option String
  child_order : Int
  content : String
  description : String
  priority : Nat
  completed_at : Option String
  due : Option DueInfo
  added_at : String
  labels : List String
deriving DecidableEq

/-- Todoist label record (the fields `todoist2org.py` reads). -/
structure Label where
  id : String
  name : String
  item_order : Int
deriving DecidableEq

/-- The Todoist 'Sync' API state dictionary: the record set the library
converts.  `user_timezone` is `state["user"]["tz_info"]["timezone"]`. -/
structure TodoistState where
  projects : List Project
  sections : List Section
  items : List Item
  labels : List Label
  user_timezone : String
deriving DecidableEq

/-- Python truthiness of an optional string: `None` and `""` are falsy. -/
def truthyStr : Option String → Bool
  | none => false
  | some s => s ≠ ""

/-- Lookup in a Python dict built by a comprehension `{key x: x for x in l}`:
when several elements share a key the last one wins. -/
def dictLookup (key : α → String) (l : List α) (k : String) : Option α :=
  (l.filter (fun a => key a = k)).getLast?

/-- Insert `x` before the first element of equal or larger key (the
auxiliary step of a stable insertion sort). -/
def insertByKey (key : α → Int) (x : α) : List α → List α
  | [] => [x]
  | y :: ys => if key y < key x then y :: insertByKey key x ys else x :: y :: ys

/-- Stable ascending insertion sort by an integer key: the model of
Python's `list.sort(key=...)`, which is guaranteed stable (equal keys
keep their input order). -/
def pySortByKey (key : α → Int) (l : List α) : List α :=
  l.foldr (insertByKey key) []

/-- The timestamp formatter abstracted over: `get_org_timestamp` takes a
raw timestamp string, a timezone name and an activity flag and returns an
Org timestamp string.  Its real implementation consults the host's tz
database, so the generators below are parameterised by it. -/
abbrev TZFormatter := String → String → Bool → String

/-! ### `convert_markdown_to_org` (src/todoist2org.py lines 371-392)

The Python function runs `re.finditer` with the pattern
`(\[(?!\]).+?\])(\((?!\)).+?\))` over the original content and, for each
match, replaces every occurrence of the matched text in the evolving
content by `[[url][label]]`.  The regex semantics are reproduced on
`List Char`: `.` matches any character except a newline, `+?` is lazy
with backtracking, matches are leftmost and non-overlapping. -/

/-- Scan for the first unconditional `')'` closing group 2; every content
character must be a non-newline (matched by `.`). -/
def scanToParenClose (acc : List Char) : List Char → Option (List Char)
  | [] => none
  | c :: rest =>
    if c = ')' then some acc.reverse
    else if c = '\n' then none
    else scanToParenClose (c :: acc) rest

/-- Try to match group 2, `\((?!\)).+?\)`, at the head of the input.
Returns the url (the content between the parentheses). -/
def matchGroup2 : List Char → Option (List Char)
  | p :: c :: rest =>
    if p = '(' then
      if c = ')' ∨ c = '\n' then none else scanToParenClose [c] rest
    else none
  | _ => none

/-- Lazy scan for the end of group 1: at each `']'`, try group 2 on the
remainder; on failure the `']'` is consumed by `.+?` and the scan goes on.
A newline aborts (it cannot be matched by `.`).  Returns (label, url). -/
def findGroup1End (acc : List Char) : List Char → Option (List Char × List Char)
  | [] => none
  | c :: rest =>
    if c = '\n' then none
    else if c = ']' then
      match matchGroup2 rest with
      | some url => some (acc.reverse, url)
      | none => findGroup1End (c :: acc) rest
    else findGroup1End (c :: acc) rest

/-- Try to match the whole hyperlink pattern at the head of the input. -/
def tryMatchAt : List Char → Option (List Char × List Char)
  | b :: c :: rest =>
    if b = '[' then
      if c = ']' ∨ c = '\n' then none else findGroup1End [c] rest
    else none
  | _ => none

/-- The verbatim text of a match with the given label and url,
`[label](url)` — `match.group(0)` in the source. -/
def matchText (label url : List Char) : List Char :=
  '[' :: label ++ ']' :: '(' :: url ++ [')']

/-- Fuelled scan for all matches of the hyperlink pattern, leftmost
first, non-overlapping.  Every step consumes at least one character and
one unit of fuel, so fuel `s.length + 1` can never run out; the fuel only
makes the recursion structural (kernel-reducible).
`findMatchesF_fuel_irrelevant` below proves the fuel is immaterial. -/
def findMatchesF : Nat → List Char → List (List Char × List Char)
  | 0, _ => []
  | _, [] => []
  | fuel + 1, c :: rest =>
    match tryMatchAt (c :: rest) with
    | some (label, url) =>
      (label, url) ::
        findMatchesF fuel ((c :: rest).drop (label.length + url.length + 4))
    | none => findMatchesF fuel rest

/-- All matches of the hyperlink pattern, leftmost first, non-overlapping:
the model of `re.finditer` over the content. -/
def findMatches (s : List Char) : List (List Char × List Char) :=
  findMatchesF (s.length + 1) s

theorem findMatchesF_fuel_irrelevant :
    ∀ fuel1 fuel2 s, s.length < fuel1 → s.length < fuel2 →
      findMatchesF fuel1 s = findMatchesF fuel2 s := by
  intro fuel1
  induction fuel1 with
  | zero => intro fuel2 s h1; omega
  | succ f1 ih =>
    intro fuel2 s h1 h2
    obtain ⟨f2, rfl⟩ : ∃ f2, fuel2 = f2 + 1 := ⟨fuel2 - 1, by omega⟩
    match s with
    | [] => rfl
    | c :: rest =>
      simp only [findMatchesF]
      simp only [List.length_cons] at h1 h2
      cases htm : tryMatchAt (c :: rest) with
      | some lu =>
        obtain ⟨label, url⟩ := lu
        simp only
        rw [ih f2 _ (by simp only [List.length_drop, List.length_cons]; omega)
          (by simp only [List.length_drop, List.length_cons]; omega)]
      | none =>
        simp only
        exact ih f2 rest (by omega) (by omega)

/-- Fuelled form of Python `str.replace`; as with `findMatchesF`, every
step consumes at least one character and one unit of fuel, so fuel
`s.length + 1` can never run out. -/
def replaceAllF (old new : List Char) : Nat → List Char → List Char
  | 0, s => s
  | _, [] => []
  | fuel + 1, c :: rest =>
    if old ≠ [] ∧ old.isPrefixOf (c :: rest) then
      new ++ replaceAllF old new fuel ((c :: rest).drop old.length)
    else c :: replaceAllF old new fuel rest

/-- Python `str.replace(old, new)`: replace every non-overlapping
occurrence of `old`, left to right.  (`old` is never empty when called
from the converter, so the empty case is mapped to the identity.) -/
def replaceAll (old new s : List Char) : List Char :=
  replaceAllF old new (s.length + 1) s

theorem replaceAllF_fuel_irrelevant (old new : List Char) :
    ∀ fuel1 fuel2 s, s.length < fuel1 → s.length < fuel2 →
      replaceAllF old new fuel1 s = replaceAllF old new fuel2 s := by
  intro fuel1
  induction fuel1 with
  | zero => intro fuel2 s h1; omega
  | succ f1 ih =>
    intro fuel2 s h1 h2
    obtain ⟨f2, rfl⟩ : ∃ f2, fuel2 = f2 + 1 := ⟨fuel2 - 1, by omega⟩
    match s with
    | [] => rfl
    | c :: rest =>
      simp only [replaceAllF]
      by_cases h : old ≠ [] ∧ old.isPrefixOf (c :: rest)
      · have hlen : 0 < old.length := List.length_pos.mpr h.1
        simp only [List.length_cons] at h1 h2
        rw [if_pos h, if_pos h,
          ih f2 _ (by simp [List.length_drop]; omega)
            (by simp [List.length_drop]; omega)]
      · simp only [List.length_cons] at h1 h2
        rw [if_neg h, if_neg h, ih f2 rest (by omega) (by omega)]

/-- The Org hyperlink `[[url][label]]` built for one match. -/
def orgHyperlink (label url : List Char) : List Char :=
  '[' :: '[' :: url ++ ']' :: '[' :: label ++ [']', ']']

/-- `convert_markdown_to_org` on character lists: fold the matches found
in the original content over the evolving content, replacing all
occurrences of each match text (source lines 384-392). -/
def convertList (s : List Char) : List Char :=
  (findMatches s).foldl
    (fun content m => replaceAll (matchText m.1 m.2) (orgHyperlink m.1 m.2) content)
    s

/-- Convert markdown in a content string to the equivalent Org format
(src/todoist2org.py lines 371-392). -/
def convert_markdown_to_org (content : String) : String :=
  ⟨convertList content.data⟩

/-- SPEC-SIDE definition (from the spec's words, not the source), for
comparison with `convertList`: scan left to right, rewrite each leftmost
non-overlapping match IN PLACE to `[[url][label]]`, and leave the text
outside matches untouched.  The fuel can never run out at
`s.length + 1`, exactly as in `findMatchesF`. -/
def spliceMatchesF : Nat → List Char → List Char
  | 0, s => s
  | _, [] => []
  | fuel + 1, c :: rest =>
    match tryMatchAt (c :: rest) with
    | some (label, url) =>
      orgHyperlink label url ++
        spliceMatchesF fuel ((c :: rest).drop (label.length + url.length + 4))
    | none => c :: spliceMatchesF fuel rest

/-- SPEC-SIDE conversion on strings: each match rewritten to the form
`[[url][label]]` in place, text outside matches untouched. -/
def convert_markdown_spec (content : String) : String :=
  ⟨spliceMatchesF (content.data.length + 1) content.data⟩

/-! ### `get_object_level` (src/todoist2org.py lines 309-331)

The source recurses up the `parent_id` chain with no cycle protection;
the fuel argument models the interpreter's recursion limit
(`RecursionError` when it runs out). -/

/-- Get the indentation level of the specified project: 1 for a root,
`1 +` the parent's level otherwise; `KeyError` when the id is absent. -/
def get_object_level (objects : String → Option Project) :
    Nat → String → Except ConvErr Nat
  | 0, _ => .error .recursionError
  | fuel + 1, object_id =>
    match objects object_id with
    | none => .error (.keyError object_id)
    | some obj =>
      match obj.parent_id with
      | none => .ok 1
      | some parent_id => do
          let n ← get_object_level objects fuel parent_id
          .ok (1 + n)

/-- The parent chain from `i` is acyclic and terminates at a project with
no parent; `ch` lists the ancestor ids in order, nearest parent first
(so `ch.length` is the number of ancestors). -/
inductive RootedChain (objects : String → Option Project) : String → List String → Prop where
  | root (i : String) (o : Project) :
      objects i = some o → o.parent_id = none → RootedChain objects i []
  | step (i : String) (o : Project) (p : String) (ch : List String) :
      objects i = some o → o.parent_id = some p → RootedChain objects p ch →
      RootedChain objects i (p :: ch)

/-- Walking `k` steps up the parent chain from `i` reaches the id `j`,
which is absent from the index. -/
inductive ChainMissingAt (objects : String → Option Project) : Nat → String → String → Prop where
  | here (j : String) : objects j = none → ChainMissingAt objects 0 j j
  | there (k : Nat) (i : String) (o : Project) (p : String) (j : String) :
      objects i = some o → o.parent_id = some p → ChainMissingAt objects k p j →
      ChainMissingAt objects (k + 1) i j

/-! ### `get_heading_lines` (src/todoist2org.py lines 395-468) -/

/-- Container for optional Org heading timestamps used on line two
(class `HeadingTimestamps`, source lines 58-70). -/
structure HeadingTimestamps where
  closed : Option String := none
  scheduled : Option String := none
  deadline : Option String := none
deriving DecidableEq

/-- Python truthiness of a `HeadingTimestamps` object
(`bool(closed or scheduled or deadline)`). -/
def truthyTimestamps (t : HeadingTimestamps) : Bool :=
  truthyStr t.closed || truthyStr t.scheduled || truthyStr t.deadline

/-- The priority marker dict `{4: "[#A] ", 3: "[#B] ", 2: "[#C] ", 1: ""}`;
any other priority raises `KeyError` (source lines 429-434). -/
def priority_str (p : Nat) : Except ConvErr String :=
  if p = 4 then .ok "[#A] "
  else if p = 3 then .ok "[#B] "
  else if p = 2 then .ok "[#C] "
  else if p = 1 then .ok ""
  else .error (.priorityKeyError p)

/-- `heading_level * "*"`. -/
def heading_stars (level : Nat) : String := ⟨List.replicate level '*'⟩

/-- `heading_level * " "`. -/
def heading_spaces (level : Nat) : String := ⟨List.replicate level ' '⟩

/-- `todo_state + " " if todo_state else ""`. -/
def todo_state_str (todo_state : String) : String :=
  if todo_state ≠ "" then todo_state ++ " " else ""

/-- `sep.join(parts)`: Python `str.join`. -/
def join_with (sep : String) : List String → String
  | [] => ""
  | [a] => a
  | a :: b :: rest => a ++ sep ++ join_with sep (b :: rest)

/-- `" :%s:" % ":".join(tags) if tags else ""`. -/
def tags_str (tags : List String) : String :=
  if tags ≠ [] then " :" ++ join_with ":" tags ++ ":" else ""

/-- The CLOSED/SCHEDULED/DEADLINE components present on line two,
in source order (lines 446-452). -/
def timestamps_list (t : HeadingTimestamps) : List String :=
  (if truthyStr t.closed then ["CLOSED: " ++ t.closed.getD ""] else []) ++
    (if truthyStr t.scheduled then ["SCHEDULED: " ++ t.scheduled.getD ""] else []) ++
    (if truthyStr t.deadline then ["DEADLINE: " ++ t.deadline.getD ""] else [])

/-- The properties block lines (source lines 456-460).  Keyword arguments
are modelled as an insertion-ordered association list, matching dict
iteration order of `**properties`. -/
def property_lines (spaces : String) (properties : List (String × String)) : List String :=
  if properties ≠ [] then
    (spaces ++ " :PROPERTIES:") ::
      (properties.map (fun nv => spaces ++ " :" ++ nv.1 ++ ": " ++ nv.2)
        ++ [spaces ++ " :END:"])
  else []

/-- The indented description lines (source lines 463-468); blank input
lines stay blank. -/
def description_lines (spaces description : String) : List String :=
  if description ≠ "" then
    (description.splitOn "\n").map
      (fun line => if line = "" then "" else spaces ++ " " ++ line)
  else []

/-- Get each line of an Org mode heading (source lines 395-468).  The
only failure is the priority-dict lookup. -/
def get_heading_lines (heading_level : Nat) (todo_state content : String)
    (priority : Nat) (tags : List String) (timestamps : HeadingTimestamps)
    (description : String) (properties : List (String × String)) :
    Except ConvErr (List String) := do
  let stars := heading_stars heading_level
  let spaces := heading_spaces heading_level
  let priority_s ← priority_str priority
  let first := stars ++ " " ++ todo_state_str todo_state ++ priority_s
      ++ content ++ tags_str tags
  let tsLines := if truthyTimestamps timestamps then
      [spaces ++ " " ++ join_with " " (timestamps_list timestamps)]
    else []
  .ok (first :: (tsLines ++ property_lines spaces properties
      ++ description_lines spaces description))

/-! ### Heading getters (src/todoist2org.py lines 471-581) -/

/-- `"\n".join(...)` over heading lines. -/
def newline_join (lines : List String) : String := join_with "\n" lines

/-- The special `:ARCHIVED:` tag list of a project heading
(source line 483). -/
def project_heading_tags (project : Project) : List String :=
  if project.is_archived then ["ARCHIVED"] else []

/-- Get the root Org mode heading string for the specified project
(source lines 471-490). -/
def get_project_root_heading (project : Project) (heading_level : Nat) :
    Except ConvErr String := do
  let lines ← get_heading_lines heading_level "" project.name 1
      (project_heading_tags project) {} "" [("CATEGORY", project.name)]
  .ok (newline_join lines ++ "\n")

/-- The special `:ARCHIVED:` tag list of a section heading
(source line 511). -/
def section_heading_tags (s : Section) : List String :=
  if s.is_archived then ["ARCHIVED"] else []

/-- Get the Org mode heading string for the specified section
(source lines 493-517). -/
def get_section_heading (fmt : TZFormatter) (state : TodoistState)
    (s : Section) (heading_level : Nat) : Except ConvErr String := do
  let user_tz := state.user_timezone
  let added_at_timestamp := fmt s.added_at user_tz false
  let lines ← get_heading_lines heading_level "" s.name 1
      (section_heading_tags s) {} "" [("CREATED", added_at_timestamp)]
  .ok (newline_join lines ++ "\n")

/-- Look up each of an item's label names in the label dict; `KeyError`
at the first missing one (source line 548). -/
def lookupLabels (labels : String → Option Label) :
    List String → Except ConvErr (List Label)
  | [] => .ok []
  | n :: rest =>
    match labels n with
    | none => .error (.keyError n)
    | some l => do
        let ls ← lookupLabels labels rest
        .ok (l :: ls)

/-- The timezone used for an item's SCHEDULED timestamp:
`due_info["timezone"] if due_info["timezone"] else user_tz`
(source line 561) — Python truthiness, so `None` AND `""` fall back. -/
def item_due_tz (user_tz : String) (due : DueInfo) : String :=
  if truthyStr due.timezone then due.timezone.getD "" else user_tz

/-- Get the Org mode heading string for the specified item
(source lines 520-581). -/
def get_item_heading (fmt : TZFormatter) (state : TodoistState) (item : Item)
    (heading_level : Nat) (labels : String → Option Label) :
    Except ConvErr String := do
  let user_tz := state.user_timezone
  let added_at_timestamp := fmt item.added_at user_tz false
  let completed_at := item.completed_at
  let todo_state := if truthyStr completed_at then "DONE" else "TODO"
  let content := convert_markdown_to_org item.content
  let description := convert_markdown_to_org item.description
  let item_labels ← lookupLabels labels item.labels
  let sorted_labels := pySortByKey (fun l => l.item_order) item_labels
  let tags0 := sorted_labels.map (fun l => l.name)
  let tags := match item.due with
    | some d => if d.is_recurring then tags0 ++ ["IS_RECURRING"] else tags0
    | none => tags0
  let timestamps : HeadingTimestamps :=
    { closed := if truthyStr completed_at then
        some (fmt (completed_at.getD "") user_tz false) else none
      scheduled := match item.due with
        | some d => some (fmt d.date (item_due_tz user_tz d) true)
        | none => none
      deadline := none }
  let lines ← get_heading_lines heading_level todo_state content item.priority
      tags timestamps description [("CREATED", added_at_timestamp)]
  .ok (newline_join lines ++ "\n")

/-! ### Item heading generation (src/todoist2org.py lines 277-306)

`generate_item_headings` sorts its (freshly built) argument list by
`child_order` in place and then, for each item, yields its heading
followed by the recursively generated headings of its children, one level
deeper.  The recursion is unbounded in the source (no cycle check); fuel
models the interpreter's recursion limit. -/

/-- Generate Org mode headings for the specified items and any child
items (source lines 277-306).  The items are first sorted in place by
`child_order`; then, for each item, its heading is emitted followed by
the recursively generated headings of its children
(`item_children[item["id"]]`), one level deeper.  The per-item loop is a
`foldr` so that the recursion is structural on the fuel. -/
def generate_item_headings (fmt : TZFormatter) (state : TodoistState)
    (children : String → Option (List Item)) (label_dict : String → Option Label) :
    Nat → List Item → Nat → Except ConvErr (List String)
  | 0, _, _ => .error .recursionError
  | fuel + 1, items, level =>
    (pySortByKey (fun i => i.child_order) items).foldr
      (fun i acc => do
        let h ← get_item_heading fmt state i level label_dict
        let cs ← match children i.id with
          | none => .error (.keyError i.id)
          | some cs => .ok cs
        let sub ← generate_item_headings fmt state children label_dict fuel cs (level + 1)
        let tail ← acc
        .ok (h :: sub ++ tail))
      (.ok [])

/-- The per-item loop of `generate_item_headings` over an already sorted
list, with `fuel` the remaining recursion budget of the child calls:
heading of the item, then the child headings, then the rest of the
siblings.  `generate_item_headings_succ` identifies it with the body of
`generate_item_headings`. -/
def genItemsList (fmt : TZFormatter) (state : TodoistState)
    (children : String → Option (List Item)) (label_dict : String → Option Label)
    (fuel : Nat) (items : List Item) (level : Nat) : Except ConvErr (List String) :=
  items.foldr
    (fun i acc => do
      let h ← get_item_heading fmt state i level label_dict
      let cs ← match children i.id with
        | none => .error (.keyError i.id)
        | some cs => .ok cs
      let sub ← generate_item_headings fmt state children label_dict fuel cs (level + 1)
      let tail ← acc
      .ok (h :: sub ++ tail))
    (.ok [])

theorem generate_item_headings_succ (fmt : TZFormatter) (state : TodoistState)
    (children : String → Option (List Item)) (label_dict : String → Option Label)
    (fuel : Nat) (items : List Item) (level : Nat) :
    generate_item_headings fmt state children label_dict (fuel + 1) items level =
      genItemsList fmt state children label_dict fuel
        (pySortByKey (fun i => i.child_order) items) level := rfl

/-- Trace twin of `generate_item_headings`: identical recursion and
failure structure, but each heading is reported as the pair
(item, heading level) instead of being rendered. -/
def trace_item_headings (children : String → Option (List Item)) :
    Nat → List Item → Nat → Except ConvErr (List (Item × Nat))
  | 0, _, _ => .error .recursionError
  | fuel + 1, items, level =>
    (pySortByKey (fun i => i.child_order) items).foldr
      (fun i acc => do
        let cs ← match children i.id with
          | none => .error (.keyError i.id)
          | some cs => .ok cs
        let sub ← trace_item_headings children fuel cs (level + 1)
        let tail ← acc
        .ok ((i, level) :: sub ++ tail))
      (.ok [])

/-- Trace twin of `genItemsList`. -/
def traceItemsList (children : String → Option (List Item)) (fuel : Nat)
    (items : List Item) (level : Nat) : Except ConvErr (List (Item × Nat)) :=
  items.foldr
    (fun i acc => do
      let cs ← match children i.id with
        | none => .error (.keyError i.id)
        | some cs => .ok cs
      let sub ← trace_item_headings children fuel cs (level + 1)
      let tail ← acc
      .ok ((i, level) :: sub ++ tail))
    (.ok [])

theorem trace_item_headings_succ (children : String → Option (List Item))
    (fuel : Nat) (items : List Item) (level : Nat) :
    trace_item_headings children (fuel + 1) items level =
      traceItemsList children fuel (pySortByKey (fun i => i.child_order) items)
        level := rfl

/-! ### Project subheadings (src/todoist2org.py lines 211-274) -/

/-- The per-project children dict `item_children` (source lines 244-248):
its keys are the ids of the project's items; the bucket for key `pid`
holds, in input order, the items appended by the loop — those with a
truthy `parent_id` equal to `pid` (an empty-string id can be a key, but
nothing is ever appended to it because `""` is falsy). -/
def item_children_dict (project_items : List Item) (pid : String) :
    Option (List Item) :=
  if (project_items.map (fun i => i.id)).contains pid then
    some (if pid = "" then []
      else project_items.filter (fun i => i.parent_id = some pid))
  else none

/-- The first item whose `section_id` is not a key of
`section_item_lists` — the `KeyError` of source line 241, if any. -/
def bad_section_item (project_items : List Item) (sectionIds : List String) :
    Option Item :=
  project_items.find? (fun i =>
    match i.section_id with
    | none => false
    | some sid => !(sectionIds.contains sid))

/-- The first item whose truthy `parent_id` is not a key of
`item_children` — the `KeyError` of source line 248, if any. -/
def bad_parent_item (project_items : List Item) : Option Item :=
  let itemIds := project_items.map (fun i => i.id)
  project_items.find? (fun i =>
    match i.parent_id with
    | none => false
    | some pid => pid ≠ "" && !(itemIds.contains pid))

/-- The loop over `[None] + project_sections` restricted to the section
part (source lines 252-274): skip archived sections unless requested,
else yield the section heading at `project_level + 1` followed by the
headings of the section's parentless items at `project_level + 2`. -/
def gen_section_blocks (fmt : TZFormatter) (state : TodoistState)
    (project_items : List Item) (label_dict : String → Option Label)
    (include_archived : Bool) (fuel project_level : Nat) :
    List Section → Except ConvErr (List String)
  | [] => .ok []
  | sec :: rest =>
    if !include_archived && sec.is_archived then
      gen_section_blocks fmt state project_items label_dict include_archived
        fuel project_level rest
    else do
      let h ← get_section_heading fmt state sec (project_level + 1)
      let items_s := (project_items.filter (fun i => i.section_id = some sec.id)).filter
          (fun i => i.parent_id = none)
      let sub ← generate_item_headings fmt state (item_children_dict project_items)
          label_dict fuel items_s (project_level + 2)
      let tail ← gen_section_blocks fmt state project_items label_dict
          include_archived fuel project_level rest
      .ok (h :: sub ++ tail)

/-- Generate Org mode subheadings for the specified project
(source lines 211-274).  `project_sections` is sorted by `section_order`
(a stable in-place sort in the source); the synthetic no-section group is
processed first, then each section in sorted order. -/
def generate_project_subheadings (fmt : TZFormatter) (state : TodoistState)
    (fuel : Nat) (project_items : List Item) (project_sections : List Section)
    (project_level : Nat) (label_dict : String → Option Label)
    (include_archived : Bool) : Except ConvErr (List String) :=
  let sorted_sections := pySortByKey (fun s => s.section_order) project_sections
  match bad_section_item project_items (sorted_sections.map (fun s => s.id)) with
  | some bad => .error (.keyError (bad.section_id.getD ""))
  | none =>
    match bad_parent_item project_items with
    | some bad => .error (.keyError (bad.parent_id.getD ""))
    | none => do
      let items0 := (project_items.filter (fun i => i.section_id = none)).filter
          (fun i => i.parent_id = none)
      let out0 ← generate_item_headings fmt state (item_children_dict project_items)
          label_dict fuel items0 (project_level + 1)
      let rest ← gen_section_blocks fmt state project_items label_dict
          include_archived fuel project_level sorted_sections
      .ok (out0 ++ rest)

/-- Trace twin of `gen_section_blocks`. -/
def trace_section_blocks (project_items : List Item) (include_archived : Bool)
    (fuel project_level : Nat) : List Section → Except ConvErr (List (Section ⊕ (Item × Nat)))
  | [] => .ok []
  | sec :: rest =>
    if !include_archived && sec.is_archived then
      trace_section_blocks project_items include_archived fuel project_level rest
    else do
      let items_s := (project_items.filter (fun i => i.section_id = some sec.id)).filter
          (fun i => i.parent_id = none)
      let sub ← trace_item_headings (item_children_dict project_items) fuel items_s
          (project_level + 2)
      let tail ← trace_section_blocks project_items include_archived fuel
          project_level rest
      .ok (Sum.inl sec :: sub.map Sum.inr ++ tail)

/-- Trace twin of `generate_project_subheadings`: the emitted headings as
section records and (item, level) pairs. -/
def trace_project_subheadings (fuel : Nat) (project_items : List Item)
    (project_sections : List Section) (project_level : Nat)
    (include_archived : Bool) : Except ConvErr (List (Section ⊕ (Item × Nat))) :=
  let sorted_sections := pySortByKey (fun s => s.section_order) project_sections
  match bad_section_item project_items (sorted_sections.map (fun s => s.id)) with
  | some bad => .error (.keyError (bad.section_id.getD ""))
  | none =>
    match bad_parent_item project_items with
    | some bad => .error (.keyError (bad.parent_id.getD ""))
    | none => do
      let items0 := (project_items.filter (fun i => i.section_id = none)).filter
          (fun i => i.parent_id = none)
      let tr0 ← trace_item_headings (item_children_dict project_items) fuel items0
          (project_level + 1)
      let rest ← trace_section_blocks project_items include_archived fuel
          project_level sorted_sections
      .ok (tr0.map Sum.inr ++ rest)

/-! ### Top-level generators (src/todoist2org.py lines 104-208)

`generate_all_headings` builds `section_list_dict` and `item_list_dict`
keyed by project id (skipping records whose `project_id` matches no
project), so the bucket read for a project `p` holds exactly the records
with `project_id = p.id`, in input order — the `filter` below. -/

/-- Concatenating effectful map: the yields of a `for` loop whose body
can raise. -/
def exceptFlatMap (f : α → Except ε (List β)) : List α → Except ε (List β)
  | [] => .ok []
  | a :: as => do
    let xs ← f a
    let ys ← exceptFlatMap f as
    .ok (xs ++ ys)

/-- The body of the per-project loop of `generate_all_headings`
(source lines 150-168): skip the project if archived and not requested,
else emit its root heading at its computed level followed by its
subheadings.  The label dict here is keyed by label NAME (line 144). -/
def project_block (fmt : TZFormatter) (fuel : Nat) (state : TodoistState)
    (include_archived : Bool) (project : Project) : Except ConvErr (List String) :=
  if !include_archived && project.is_archived then .ok []
  else do
    let projects_dict := dictLookup (fun p => p.id) state.projects
    let label_dict := dictLookup (fun l => l.name) state.labels
    let level ← get_object_level projects_dict fuel project.id
    let root ← get_project_root_heading project level
    let project_items := state.items.filter (fun i => i.project_id = project.id)
    let project_sections := state.sections.filter (fun s => s.project_id = project.id)
    let sub ← generate_project_subheadings fmt state fuel project_items
        project_sections level label_dict include_archived
    .ok (root :: sub)

/-- Generate Org mode headings for all Todoist projects, sections and
items (source lines 104-168). -/
def generate_all_headings (fmt : TZFormatter) (fuel : Nat) (state : TodoistState)
    (include_archived : Bool) : Except ConvErr (List String) :=
  exceptFlatMap (project_block fmt fuel state include_archived) state.projects

/-- Generate Org mode headings for the specified Todoist project
(source lines 171-208).  Notable differences from the all-projects loop,
kept faithfully: the project's own heading is emitted even when the
project is archived (`include_archived` only filters sections), and the
label dict is keyed by label ID (line 192) although the heading code
looks labels up by NAME. -/
def generate_project_headings (fmt : TZFormatter) (fuel : Nat)
    (state : TodoistState) (project_id : String) (include_archived : Bool) :
    Except ConvErr (List String) :=
  let projects_dict := dictLookup (fun p => p.id) state.projects
  let project_sections := state.sections.filter (fun s => s.project_id = project_id)
  let project_items := state.items.filter (fun i => i.project_id = project_id)
  let label_dict := dictLookup (fun l => l.id) state.labels
  match projects_dict project_id with
  | none => .error (.keyError project_id)
  | some project => do
    let level ← get_object_level projects_dict fuel project_id
    let root ← get_project_root_heading project level
    let sub ← generate_project_subheadings fmt state fuel project_items
        project_sections level label_dict include_archived
    .ok (root :: sub)

/-- A heading event of the full trace: a project, section or item
together with its heading level. -/
inductive Ev where
  | proj (p : Project) (level : Nat)
  | sec (s : Section) (level : Nat)
  | item (i : Item) (level : Nat)
deriving DecidableEq

/-- Trace twin of `project_block`. -/
def trace_project_block (fuel : Nat) (state : TodoistState)
    (include_archived : Bool) (project : Project) : Except ConvErr (List Ev) :=
  if !include_archived && project.is_archived then .ok []
  else do
    let projects_dict := dictLookup (fun p => p.id) state.projects
    let level ← get_object_level projects_dict fuel project.id
    let project_items := state.items.filter (fun i => i.project_id = project.id)
    let project_sections := state.sections.filter (fun s => s.project_id = project.id)
    let sub ← trace_project_subheadings fuel project_items project_sections level
        include_archived
    .ok (Ev.proj project level ::
      sub.map (fun e => match e with
        | Sum.inl s => Ev.sec s (level + 1)
        | Sum.inr p => Ev.item p.1 p.2))

/-- Trace twin of `generate_all_headings`: the emitted headings as
(object, level) events. -/
def trace_all_headings (fuel : Nat) (state : TodoistState)
    (include_archived : Bool) : Except ConvErr (List Ev) :=
  exceptFlatMap (trace_project_block fuel state include_archived) state.projects

/-- Render one trace event to its heading string, exactly as the string
generators do. -/
def renderEv (fmt : TZFormatter) (state : TodoistState)
    (label_dict : String → Option Label) : Ev → Except ConvErr String
  | .proj p level => get_project_root_heading p level
  | .sec s level => get_section_heading fmt state s level
  | .item i level => get_item_heading fmt state i level label_dict

/-- Render a list of (item, level) trace events in order, exactly as the
string generator does. -/
def renderItems (fmt : TZFormatter) (state : TodoistState)
    (label_dict : String → Option Label) :
    List (Item × Nat) → Except ConvErr (List String)
  | [] => .ok []
  | e :: rest => do
    let h ← get_item_heading fmt state e.1 e.2 label_dict
    let tail ← renderItems fmt state label_dict rest
    .ok (h :: tail)

/-- Render a list of subheading trace events (sections at
`project_level + 1`, items at their recorded levels) in order. -/
def renderSubEvs (fmt : TZFormatter) (state : TodoistState)
    (label_dict : String → Option Label) (project_level : Nat) :
    List (Section ⊕ (Item × Nat)) → Except ConvErr (List String)
  | [] => .ok []
  | Sum.inl s :: rest => do
    let h ← get_section_heading fmt state s (project_level + 1)
    let tail ← renderSubEvs fmt state label_dict project_level rest
    .ok (h :: tail)
  | Sum.inr e :: rest => do
    let h ← get_item_heading fmt state e.1 e.2 label_dict
    let tail ← renderSubEvs fmt state label_dict project_level rest
    .ok (h :: tail)

/-- Render a list of full-trace events in order. -/
def renderEvs (fmt : TZFormatter) (state : TodoistState)
    (label_dict : String → Option Label) : List Ev → Except ConvErr (List String)
  | [] => .ok []
  | ev :: rest => do
    let h ← renderEv fmt state label_dict ev
    let tail ← renderEvs fmt state label_dict rest
    .ok (h :: tail)

/-! ### State-threading wrappers

The source's generators mutate nothing reachable from `state`: the lists
sorted in place (`project_sections.sort`, `items.sort`) are always lists
freshly constructed inside `generate_all_headings`,
`generate_project_headings` or `generate_project_subheadings` (dict
buckets and comprehensions), never `state["..."]` themselves.  The
wrappers below make the caller-visible effects explicit: the subheadings
call returns the post-call values of its two list parameters (the
sections list comes back sorted — the one visible in-place mutation), and
the top-level calls return the post-call state record, field by field. -/

/-- `generate_project_subheadings` together with the post-call values of
its list arguments: `project_items` is left as passed, while
`project_sections` has been sorted in place by `section_order`. -/
def generate_project_subheadings_st (fmt : TZFormatter) (state : TodoistState)
    (fuel : Nat) (project_items : List Item) (project_sections : List Section)
    (project_level : Nat) (label_dict : String → Option Label)
    (include_archived : Bool) :
    Except ConvErr (List String) × List Item × List Section :=
  (generate_project_subheadings fmt state fuel project_items project_sections
      project_level label_dict include_archived,
    project_items,
    pySortByKey (fun s => s.section_order) project_sections)

/-- `generate_all_headings` together with the post-call state record,
rebuilt field by field from what the call leaves behind. -/
def generate_all_headings_st (fmt : TZFormatter) (fuel : Nat)
    (state : TodoistState) (include_archived : Bool) :
    Except ConvErr (List String) × TodoistState :=
  (generate_all_headings fmt fuel state include_archived,
    { projects := state.projects, sections := state.sections,
      items := state.items, labels := state.labels,
      user_timezone := state.user_timezone })

/-- `generate_project_headings` together with the post-call state
record, rebuilt field by field from what the call leaves behind. -/
def generate_project_headings_st (fmt : TZFormatter) (fuel : Nat)
    (state : TodoistState) (project_id : String) (include_archived : Bool) :
    Except ConvErr (List String) × TodoistState :=
  (generate_project_headings fmt fuel state project_id include_archived,
    { projects := state.projects, sections := state.sections,
      items := state.items, labels := state.labels,
      user_timezone := state.user_timezone })

/-! ### Spec-side notions and concrete witness data

`containsLinkPattern` is written from the claims' words ("a markdown-link
pattern [label](url)"), not from the regex, so that the identity claim
can be stated against the spec's own notion.  `claimedScheduledTz` is the
timezone selection exactly as claim C10 words it ("the due date's own
timezone when that field is non-null"), to be compared against the code's
`item_due_tz`.  The remaining definitions are concrete records used by
witnesses and counterexamples. -/

/-- Does the list start with at least one url character followed
eventually by a closing `')'`, i.e. is it of the form `url ++ ')' :: _`
with `url` non-empty? -/
def hasUrlClose (l : List Char) : Bool := (l.drop 1).contains ')'

/-- Is the list of the form `labelRest ++ ']' :: '(' :: url ++ ')' :: _`
with `url` non-empty (labelRest possibly empty)? -/
def hasCloseParen : List Char → Bool
  | [] => false
  | c :: rest =>
    ((c = ']') && (match rest with
      | c2 :: rest2 => (c2 = '(') && hasUrlClose rest2
      | [] => false)) || hasCloseParen rest

/-- Spec-side: the text contains a substring `[label](url)` with
non-empty label and url. -/
def containsLinkPattern : List Char → Bool
  | [] => false
  | c :: rest =>
    ((c = '[') && (match rest with
      | _ :: rest2 => hasCloseParen rest2
      | [] => false)) || containsLinkPattern rest

/-- A small concrete project index for the C3 witness: a root, a child of
the root, and a project whose parent id is dangling. -/
def objC3 : String → Option Project :=
  dictLookup (fun p => p.id)
    [⟨"r", "Root", none, false⟩, ⟨"c", "Child", some "r", false⟩,
     ⟨"m", "Mid", some "zz", false⟩]

/-- The timezone selection for SCHEDULED as claim C10 words it: the due
info's own timezone when non-null, else the user's.  (The code instead
falls back to the user timezone for empty strings too.) -/
def claimedScheduledTz (user_tz : String) (due : DueInfo) : String :=
  match due.timezone with
  | some tz => tz
  | none => user_tz

/-- Formatter for the C10 counterexample: reveals only the timezone. -/
def fmtC10 : TZFormatter := fun _ tz _ => "TZ[" ++ tz ++ "]"

/-- State for the C10 counterexample; the user timezone is "UTZ". -/
def stC10 : TodoistState := ⟨[], [], [], [], "UTZ"⟩

/-- Item for the C10 counterexample: its due info carries the non-null
but empty timezone `""`. -/
def itemC10 : Item :=
  ⟨"i", "p", none, none, 0, "c", "", 1, none,
    some ⟨"2024-05-05", some "", false, "d"⟩, "A", []⟩

/-- Formatter for the C10 witness: reveals all three arguments. -/
def fmtC10w : TZFormatter :=
  fun ts tz act => "W(" ++ ts ++ "," ++ tz ++ "," ++ (if act then "a" else "i") ++ ")"

/-- State for the C10 witness; the user timezone is "Paris". -/
def stC10w : TodoistState := ⟨[], [], [], [], "Paris"⟩

/-- Completed item with a due date in timezone "Tokyo", for the C10
witness. -/
def itemC10w : Item :=
  ⟨"i", "p", none, none, 0, "c", "", 1, some "DONE-AT",
    some ⟨"D", some "Tokyo", false, "s"⟩, "ADD", []⟩

/-- Section for the C10 witness. -/
def secC10w : Section := ⟨"s", "p", 0, "SADD", false, "SN"⟩

/-- Formatter for the C1 witness and counterexample. -/
def fmtC1 : TZFormatter := fun ts tz _ => "F(" ++ ts ++ "|" ++ tz ++ ")"

/-- C1 counterexample state (a): one non-archived project whose single
item carries the label named "lab", whose label record has id "5" ≠ name. -/
def stC1a : TodoistState :=
  ⟨[⟨"p", "P", none, false⟩], [],
    [⟨"i", "p", none, none, 0, "task", "", 1, none, none, "AD", ["lab"]⟩],
    [⟨"5", "lab", 0⟩], "Z"⟩

/-- C1 counterexample state (b): a single ARCHIVED project. -/
def stC1b : TodoistState := ⟨[⟨"q", "Q", none, true⟩], [], [], [], "Z"⟩

/-- C1 witness state: one project with a section, a sectioned item with a
child item, and a label whose id equals its name. -/
def stC1w : TodoistState :=
  ⟨[⟨"p", "P", none, false⟩], [⟨"s", "p", 0, "SA", false, "S"⟩],
    [⟨"i1", "p", some "s", none, 0, "top", "", 1, none, none, "A1", ["l1"]⟩,
     ⟨"i2", "p", some "s", some "i1", 0, "kid", "", 1, none, none, "A2", []⟩],
    [⟨"l1", "l1", 0⟩], "Z"⟩

/-- Formatter for the structural witnesses: reveals all three arguments. -/
def fmtW : TZFormatter := fun ts tz act =>
  "T(" ++ ts ++ "|" ++ tz ++ "|" ++ (if act then "a" else "i") ++ ")"

/-- Empty label dict for witnesses whose items carry no labels. -/
def ldW : String → Option Label := fun _ => none

/-- State for the C2 witness (the record set is passed per argument at
this granularity, so only the user timezone matters). -/
def stC2w : TodoistState := ⟨[], [], [], [], "U"⟩

/-- C2 witness items: two parentless unsectioned items with distinct
child orders, a child of the first, and a parentless sectioned item. -/
def iC2a : Item := ⟨"a", "p", none, none, 2, "A", "", 1, none, none, "t1", []⟩

def iC2b : Item := ⟨"b", "p", none, none, 1, "B", "", 1, none, none, "t2", []⟩

def iC2c : Item := ⟨"c", "p", none, some "a", 1, "C", "", 1, none, none, "t3", []⟩

def iC2d : Item := ⟨"d", "p", some "s1", none, 1, "D", "", 1, none, none, "t4", []⟩

/-- C2 witness section. -/
def secC2w : Section := ⟨"s1", "p", 1, "sa", false, "S1"⟩

def itemsC2w : List Item := [iC2a, iC2b, iC2c, iC2d]

def secsC2w : List Section := [secC2w]

/-- The headings generated for the C2 witness record set. -/
def outC2w : List String :=
  ["** TODO B\n   :PROPERTIES:\n   :CREATED: T(t2|U|i)\n   :END:\n",
   "** TODO A\n   :PROPERTIES:\n   :CREATED: T(t1|U|i)\n   :END:\n",
   "*** TODO C\n    :PROPERTIES:\n    :CREATED: T(t3|U|i)\n    :END:\n",
   "** S1\n   :PROPERTIES:\n   :CREATED: T(sa|U|i)\n   :END:\n",
   "*** TODO D\n    :PROPERTIES:\n    :CREATED: T(t4|U|i)\n    :END:\n"]

/-- The trace of the C2 witness run. -/
def trC2w : List (Section ⊕ (Item × Nat)) :=
  [Sum.inr (iC2b, 2), Sum.inr (iC2a, 2), Sum.inr (iC2c, 3),
   Sum.inl secC2w, Sum.inr (iC2d, 3)]

/-- C4 witness items: two parentless unsectioned items with TIED child
orders (stability shows in the output order), and a sectioned item. -/
def iC4a : Item := ⟨"a", "p", none, none, 5, "A", "", 1, none, none, "u1", []⟩

def iC4b : Item := ⟨"b", "p", none, none, 5, "B", "", 1, none, none, "u2", []⟩

def iC4c : Item := ⟨"c", "p", some "sA", none, 1, "C", "", 1, none, none, "u3", []⟩

/-- C4 witness sections, with TIED section orders (stability shows in the
output order). -/
def secC4a : Section := ⟨"sA", "p", 1, "x1", false, "SA"⟩

def secC4b : Section := ⟨"sB", "p", 1, "x2", false, "SB"⟩

def itemsC4w : List Item := [iC4a, iC4b, iC4c]

def secsC4w : List Section := [secC4a, secC4b]

/-- The headings generated for the C4 witness record set. -/
def outC4w : List String :=
  ["** TODO A\n   :PROPERTIES:\n   :CREATED: T(u1|U|i)\n   :END:\n",
   "** TODO B\n   :PROPERTIES:\n   :CREATED: T(u2|U|i)\n   :END:\n",
   "** SA\n   :PROPERTIES:\n   :CREATED: T(x1|U|i)\n   :END:\n",
   "*** TODO C\n    :PROPERTIES:\n    :CREATED: T(u3|U|i)\n    :END:\n",
   "** SB\n   :PROPERTIES:\n   :CREATED: T(x2|U|i)\n   :END:\n"]

/-- The trace of the C4 witness run. -/
def trC4w : List (Section ⊕ (Item × Nat)) :=
  [Sum.inr (iC4a, 2), Sum.inr (iC4b, 2), Sum.inl secC4a,
   Sum.inr (iC4c, 3), Sum.inl secC4b]

/-- C5 witness records: a non-archived and an archived project, the
first with a non-archived and an archived section. -/
def pC5n : Project := ⟨"pn", "PN", none, false⟩

def pC5a : Project := ⟨"pa", "PA", none, true⟩

def sC5n : Section := ⟨"sn", "pn", 0, "t1", false, "SN"⟩

def sC5a : Section := ⟨"sa", "pn", 1, "t2", true, "SA"⟩

def stC5w : TodoistState := ⟨[pC5n, pC5a], [sC5n, sC5a], [], [], "U"⟩

/-- The headings generated for the C5 witness record set with
`include_archived = true`. -/
def outC5w : List String :=
  ["* PN\n  :PROPERTIES:\n  :CATEGORY: PN\n  :END:\n",
   "** SN\n   :PROPERTIES:\n   :CREATED: T(t1|U|i)\n   :END:\n",
   "** SA :ARCHIVED:\n   :PROPERTIES:\n   :CREATED: T(t2|U|i)\n   :END:\n",
   "* PA :ARCHIVED:\n  :PROPERTIES:\n  :CATEGORY: PA\n  :END:\n"]

/-! ## Basic lemmas about the embedding's building blocks -/

theorem ok_bind {ε α β : Type _} (a : α) (f : α → Except ε β) :
    (Except.ok a >>= f) = f a := rfl

theorem error_bind {ε α β : Type _} (e : ε) (f : α → Except ε β) :
    ((Except.error e : Except ε α) >>= f) = Except.error e := rfl

theorem mem_insertByKey {key : α → Int} {x a : α} {l : List α} :
    a ∈ insertByKey key x l ↔ a = x ∨ a ∈ l := by
  induction l with
  | nil => simp [insertByKey]
  | cons y ys ih =>
    simp only [insertByKey]
    by_cases h : key y < key x
    · simp only [if_pos h, List.mem_cons, ih]
      tauto
    · simp only [if_neg h, List.mem_cons]

theorem pairwise_insertByKey {key : α → Int} {x : α} {l : List α}
    (hl : l.Pairwise (fun a b => key a ≤ key b)) :
    (insertByKey key x l).Pairwise (fun a b => key a ≤ key b) := by
  induction l with
  | nil => simp [insertByKey]
  | cons y ys ih =>
    rw [List.pairwise_cons] at hl
    simp only [insertByKey]
    by_cases h : key y < key x
    · rw [if_pos h, List.pairwise_cons]
      refine ⟨?_, ih hl.2⟩
      intro z hz
      rcases mem_insertByKey.mp hz with rfl | hz
      · exact le_of_lt h
      · exact hl.1 z hz
    · rw [if_neg h, List.pairwise_cons]
      refine ⟨?_, List.pairwise_cons.mpr hl⟩
      intro z hz
      rcases List.mem_cons.mp hz with rfl | hz
      · exact le_of_not_lt h
      · exact le_trans (le_of_not_lt h) (hl.1 z hz)

theorem filter_insertByKey {key : α → Int} (x : α) (l : List α) (k : Int) :
    (insertByKey key x l).filter (fun a => key a = k) =
      if key x = k then x :: l.filter (fun a => key a = k)
      else l.filter (fun a => key a = k) := by
  induction l with
  | nil => simp [insertByKey, List.filter_cons]
  | cons y ys ih =>
    simp only [insertByKey]
    by_cases h : key y < key x
    · rw [if_pos h]
      by_cases hx : key x = k
      · have hy : ¬ (key y = k) := by omega
        simp [List.filter_cons, hx, hy, ih]
      · by_cases hy : key y = k <;> simp [List.filter_cons, hx, hy, ih]
    · rw [if_neg h]
      by_cases hx : key x = k <;> simp [List.filter_cons, hx]

theorem pySortByKey_cons {key : α → Int} (x : α) (l : List α) :
    pySortByKey key (x :: l) = insertByKey key x (pySortByKey key l) := rfl

theorem pySortByKey_sorted {key : α → Int} (l : List α) :
    (pySortByKey key l).Pairwise (fun a b => key a ≤ key b) := by
  induction l with
  | nil => simp [pySortByKey]
  | cons a t ih => exact pairwise_insertByKey ih

theorem pySortByKey_filter {key : α → Int} (l : List α) (k : Int) :
    (pySortByKey key l).filter (fun a => key a = k) =
      l.filter (fun a => key a = k) := by
  induction l with
  | nil => rfl
  | cons a t ih =>
    rw [pySortByKey_cons, filter_insertByKey]
    by_cases hx : key a = k <;> simp [List.filter_cons, hx, ih]

theorem insertByKey_perm {key : α → Int} (x : α) (l : List α) :
    List.Perm (insertByKey key x l) (x :: l) := by
  induction l with
  | nil => simp [insertByKey]
  | cons y ys ih =>
    simp only [insertByKey]
    by_cases h : key y < key x
    · rw [if_pos h]
      exact List.Perm.trans (List.Perm.cons y ih) (List.Perm.swap x y ys)
    · rw [if_neg h]

theorem pySortByKey_perm {key : α → Int} (l : List α) :
    List.Perm (pySortByKey key l) l := by
  induction l with
  | nil => rfl
  | cons a t ih =>
    exact List.Perm.trans (insertByKey_perm a (pySortByKey key t))
      (List.Perm.cons a ih)

theorem mem_pySortByKey {key : α → Int} {l : List α} {a : α} :
    a ∈ pySortByKey key l ↔ a ∈ l :=
  (pySortByKey_perm l).mem_iff

theorem dictLookup_mem {key : α → String} {l : List α} {k : String} {a : α}
    (h : dictLookup key l k = some a) : a ∈ l ∧ key a = k := by
  unfold dictLookup at h
  have hx : a ∈ (List.filter (fun a => decide (key a = k)) l).getLast? := h
  obtain ⟨hne, heq⟩ := List.mem_getLast?_eq_getLast hx
  subst heq
  have hm := List.mem_filter.mp (List.getLast_mem hne)
  exact ⟨hm.1, by simpa using hm.2⟩

theorem dictLookup_congr {key1 key2 : α → String} {l : List α}
    (h : ∀ a ∈ l, key1 a = key2 a) : dictLookup key1 l = dictLookup key2 l := by
  funext k
  unfold dictLookup
  congr 1
  apply List.filter_congr
  intro a ha
  simp [h a ha]

/-! ## C3: `get_object_level` on rooted and on broken parent chains -/

theorem get_object_level_rooted {objects : String → Option Project} {i : String}
    {ch : List String} (h : RootedChain objects i ch) :
    ∀ fuel, ch.length < fuel →
      get_object_level objects fuel i = .ok (1 + ch.length) := by
  induction h with
  | root i o hobj hpar =>
    intro fuel hf
    obtain ⟨f, rfl⟩ : ∃ f, fuel = f + 1 := ⟨fuel - 1, by omega⟩
    simp [get_object_level, hobj, hpar]
  | step i o p ch hobj hpar hch ih =>
    intro fuel hf
    obtain ⟨f, rfl⟩ : ∃ f, fuel = f + 1 := ⟨fuel - 1, by omega⟩
    have hlen : ch.length < f := by
      simp only [List.length_cons] at hf
      omega
    simp only [get_object_level, hobj, hpar, ih f hlen, ok_bind, List.length_cons]
    congr 1
    omega

theorem get_object_level_missing {objects : String → Option Project}
    {k : Nat} {i j : String} (h : ChainMissingAt objects k i j) :
    ∀ fuel, k < fuel →
      get_object_level objects fuel i = .error (.keyError j) := by
  induction h with
  | here j hj =>
    intro fuel hf
    obtain ⟨f, rfl⟩ : ∃ f, fuel = f + 1 := ⟨fuel - 1, by omega⟩
    simp [get_object_level, hj]
  | there k i o p j hobj hpar hch ih =>
    intro fuel hf
    obtain ⟨f, rfl⟩ : ∃ f, fuel = f + 1 := ⟨fuel - 1, by omega⟩
    simp only [get_object_level, hobj, hpar, ih f (by omega), error_bind]

/-- C3: for every project whose `parent_id` chain is acyclic and terminates at
a project with no parent, `get_object_level` (with fuel above the chain
length, i.e. within the interpreter's recursion limit) returns `1 +` the
number of ancestors, and in particular returns `1` for a root project; and if
walking the parent chain reaches an id absent from the index, the call fails
with that id's lookup `KeyError` instead of returning a value. -/
theorem claim_C3 (objects : String → Option Project) :
    (∀ i ch fuel, RootedChain objects i ch → ch.length < fuel →
      get_object_level objects fuel i = .ok (1 + ch.length)) ∧
    (∀ i fuel, RootedChain objects i [] → 0 < fuel →
      get_object_level objects fuel i = .ok 1) ∧
    (∀ k i j fuel, ChainMissingAt objects k i j → k < fuel →
      get_object_level objects fuel i = .error (.keyError j)) := by
  refine ⟨?_, ?_, ?_⟩
  · intro i ch fuel hch hf
    exact get_object_level_rooted hch fuel hf
  · intro i fuel hch hf
    exact get_object_level_rooted hch fuel hf
  · intro k i j fuel hch hf
    exact get_object_level_missing hch fuel hf

theorem claim_C3_witness :
    get_object_level objC3 3 "c" = .ok 2 ∧
    get_object_level objC3 3 "r" = .ok 1 ∧
    get_object_level objC3 3 "m" = .error (.keyError "zz") := by
  refine ⟨?_, ?_, ?_⟩
  · exact (claim_C3 objC3).1 "c" ["r"] 3
      (RootedChain.step _ _ _ _ rfl rfl (RootedChain.root _ _ rfl rfl))
      (by norm_num)
  · exact (claim_C3 objC3).2.1 "r" 3 (RootedChain.root _ _ rfl rfl) (by norm_num)
  · exact (claim_C3 objC3).2.2 1 "m" "zz" 3
      (ChainMissingAt.there _ _ _ _ _ rfl rfl (ChainMissingAt.here _ rfl))
      (by norm_num)

/-! ## C8: priority markers and the InvalidPriority condition -/

theorem priority_str_ok_iff (p : Nat) :
    (∃ m, priority_str p = .ok m) ↔ (p = 1 ∨ p = 2 ∨ p = 3 ∨ p = 4) := by
  unfold priority_str
  constructor
  · rintro ⟨m, hm⟩
    by_cases h4 : p = 4
    · tauto
    by_cases h3 : p = 3
    · tauto
    by_cases h2 : p = 2
    · tauto
    by_cases h1 : p = 1
    · tauto
    simp [h4, h3, h2, h1] at hm
  · rintro (rfl | rfl | rfl | rfl) <;> simp

theorem priority_str_error (p : Nat)
    (h : ¬(p = 1 ∨ p = 2 ∨ p = 3 ∨ p = 4)) :
    priority_str p = .error (.priorityKeyError p) := by
  push_neg at h
  obtain ⟨h1, h2, h3, h4⟩ := h
  simp [priority_str, h1, h2, h3, h4]

/-- C8: `get_heading_lines` succeeds exactly on priorities 1-4; outside
that set it fails with the priority-lookup `KeyError` (the spec's
InvalidPriority condition) carrying the offending value — never a clamped
result; on success the first heading line is stars, todo state, the
priority marker, content and tags, where the markers for 4/3/2 are
`"[#A] "`/`"[#B] "`/`"[#C] "` and priority 1 contributes no marker. -/
theorem claim_C8 (heading_level : Nat) (todo_state content : String)
    (priority : Nat) (tags : List String) (timestamps : HeadingTimestamps)
    (description : String) (properties : List (String × String)) :
    ((∃ lines, get_heading_lines heading_level todo_state content priority tags
        timestamps description properties = .ok lines) ↔
      (priority = 1 ∨ priority = 2 ∨ priority = 3 ∨ priority = 4)) ∧
    (¬(priority = 1 ∨ priority = 2 ∨ priority = 3 ∨ priority = 4) →
      get_heading_lines heading_level todo_state content priority tags
        timestamps description properties = .error (.priorityKeyError priority)) ∧
    (∀ lines, get_heading_lines heading_level todo_state content priority tags
        timestamps description properties = .ok lines →
      ∃ marker, priority_str priority = .ok marker ∧
        lines.head? = some (heading_stars heading_level ++ " "
          ++ todo_state_str todo_state ++ marker ++ content ++ tags_str tags)) ∧
    priority_str 1 = .ok "" ∧ priority_str 2 = .ok "[#C] " ∧
    priority_str 3 = .ok "[#B] " ∧ priority_str 4 = .ok "[#A] " := by
  refine ⟨?_, ?_, ?_, rfl, rfl, rfl, rfl⟩
  · constructor
    · rintro ⟨lines, hl⟩
      rcases hm : priority_str priority with e | m
      · rw [get_heading_lines] at hl
        simp only [hm, error_bind] at hl
        exact Except.noConfusion hl
      · exact (priority_str_ok_iff priority).mp ⟨m, hm⟩
    · intro hp
      obtain ⟨m, hm⟩ := (priority_str_ok_iff priority).mpr hp
      rcases hg : get_heading_lines heading_level todo_state content priority tags
          timestamps description properties with e | lines
      · rw [get_heading_lines] at hg
        simp only [hm, ok_bind] at hg
        exact Except.noConfusion hg
      · exact ⟨lines, rfl⟩
  · intro hp
    rw [get_heading_lines]
    simp only [priority_str_error priority hp, error_bind]
  · intro lines hl
    rcases hm : priority_str priority with e | m
    · rw [get_heading_lines] at hl
      simp only [hm, error_bind] at hl
      exact Except.noConfusion hl
    · refine ⟨m, rfl, ?_⟩
      rw [get_heading_lines] at hl
      simp only [hm, ok_bind, Except.ok.injEq] at hl
      subst hl
      rfl

theorem claim_C8_witness :
    ¬(7 = 1 ∨ 7 = 2 ∨ 7 = 3 ∨ 7 = 4) ∧
    get_heading_lines 2 "TODO" "x" 7 [] {} "" [] = .error (.priorityKeyError 7) ∧
    (∃ lines, get_heading_lines 2 "TODO" "x" 2 [] {} "" [] = .ok lines) :=
  ⟨by decide, (claim_C8 2 "TODO" "x" 7 [] {} "" []).2.1 (by decide),
    (claim_C8 2 "TODO" "x" 2 [] {} "" []).1.mpr (by decide)⟩

/-! ## C6: the inline markup converter

Spec-side notion, written from the claim's words and not from the regex:
a text "contains a markdown-link pattern" when it has a substring of the
shape `[label](url)` with non-empty label and url (label and url
arbitrary otherwise).  Every regex match is such a substring, so a text
without any such substring is returned unchanged. -/

theorem containsLinkPattern_cons {rest : List Char} (c : Char)
    (h : containsLinkPattern rest = true) :
    containsLinkPattern (c :: rest) = true := by
  simp only [containsLinkPattern, h, Bool.or_true]

theorem hasCloseParen_cons {rest : List Char} (c : Char)
    (h : hasCloseParen rest = true) :
    hasCloseParen (c :: rest) = true := by
  simp only [hasCloseParen, h, Bool.or_true]

theorem hasCloseParen_of_shape (ls tail : List Char) {u1 : Char} (us : List Char) :
    hasCloseParen (ls ++ ']' :: '(' :: (u1 :: us) ++ ')' :: tail) = true := by
  induction ls with
  | nil => simp [hasCloseParen, hasUrlClose]
  | cons c cs ih => exact hasCloseParen_cons c ih

theorem containsLinkPattern_of_shape {l1 : Char} (ls : List Char) {u1 : Char}
    (us tail : List Char) :
    containsLinkPattern ('[' :: (l1 :: ls) ++ ']' :: '(' :: (u1 :: us) ++ ')' :: tail)
      = true := by
  have h := @hasCloseParen_of_shape ls tail u1 us
  simp only [List.cons_append, List.append_assoc] at h
  simp [containsLinkPattern, h]

theorem scanToParenClose_spec :
    ∀ (rest acc url : List Char), scanToParenClose acc rest = some url →
      ∃ mid tail, rest = mid ++ ')' :: tail ∧ url = acc.reverse ++ mid := by
  intro rest
  induction rest with
  | nil => intro acc url h; exact absurd h (by simp [scanToParenClose])
  | cons c r ih =>
    intro acc url h
    by_cases hc : c = ')'
    · refine ⟨[], r, by simp [hc], ?_⟩
      simp only [scanToParenClose, if_pos hc] at h
      simp [← Option.some.injEq, h]
    · by_cases hn : c = '\n'
      · simp [scanToParenClose, hc, hn] at h
      · simp only [scanToParenClose, if_neg hc, if_neg hn] at h
        obtain ⟨mid, tail, hr, hu⟩ := ih (c :: acc) url h
        refine ⟨c :: mid, tail, by simp [hr], ?_⟩
        simp only [hu, List.reverse_cons, List.append_assoc, List.cons_append,
          List.nil_append]

theorem matchGroup2_spec {rest url : List Char} (h : matchGroup2 rest = some url) :
    ∃ u1 us tail, url = u1 :: us ∧ rest = '(' :: url ++ ')' :: tail := by
  match rest with
  | [] => exact absurd h (by simp [matchGroup2])
  | [p] => exact absurd h (by simp [matchGroup2])
  | p :: c :: r =>
    simp only [matchGroup2] at h
    by_cases hp : p = '('
    · rw [if_pos hp] at h
      by_cases hc : c = ')' ∨ c = '\n'
      · rw [if_pos hc] at h
        exact Option.noConfusion h
      · rw [if_neg hc] at h
        obtain ⟨mid, tail, hr, hu⟩ := scanToParenClose_spec r [c] url h
        subst hp
        exact ⟨c, mid, tail, by simpa using hu, by simp [hr, hu]⟩
    · rw [if_neg hp] at h
      exact Option.noConfusion h

theorem findGroup1End_spec :
    ∀ (rest acc label url : List Char), findGroup1End acc rest = some (label, url) →
      ∃ mid tail, rest = mid ++ ']' :: tail ∧ label = acc.reverse ++ mid ∧
        matchGroup2 tail = some url := by
  intro rest
  induction rest with
  | nil => intro acc label url h; exact absurd h (by simp [findGroup1End])
  | cons c r ih =>
    intro acc label url h
    by_cases hn : c = '\n'
    · simp [findGroup1End, hn] at h
    · by_cases hb : c = ']'
      · simp only [findGroup1End, if_neg hn, if_pos hb] at h
        cases hm : matchGroup2 r with
        | some url2 =>
          rw [hm] at h
          obtain ⟨rfl, rfl⟩ : acc.reverse = label ∧ url2 = url := by
            simpa [And.comm] using h
          exact ⟨[], r, by simp [hb], by simp, hm⟩
        | none =>
          rw [hm] at h
          obtain ⟨mid, tail, hr, hl, hm2⟩ := ih (c :: acc) label url h
          exact ⟨c :: mid, tail, by simp [hr], by simp [hl], hm2⟩
      · simp only [findGroup1End, if_neg hn, if_neg hb] at h
        obtain ⟨mid, tail, hr, hl, hm2⟩ := ih (c :: acc) label url h
        exact ⟨c :: mid, tail, by simp [hr], by simp [hl], hm2⟩

theorem tryMatchAt_spec {s label url : List Char}
    (h : tryMatchAt s = some (label, url)) :
    ∃ l1 ls u1 us tail, label = l1 :: ls ∧ url = u1 :: us ∧
      s = '[' :: label ++ ']' :: '(' :: url ++ ')' :: tail := by
  match s with
  | [] => exact absurd h (by simp [tryMatchAt])
  | [b] => exact absurd h (by simp [tryMatchAt])
  | b :: c :: rest =>
    simp only [tryMatchAt] at h
    by_cases hb : b = '['
    · rw [if_pos hb] at h
      by_cases hc : c = ']' ∨ c = '\n'
      · rw [if_pos hc] at h
        exact Option.noConfusion h
      · rw [if_neg hc] at h
        obtain ⟨mid, tail, hr, hl, hm⟩ := findGroup1End_spec rest [c] label url h
        obtain ⟨u1, us, tail2, hu, ht⟩ := matchGroup2_spec hm
        subst hb
        refine ⟨c, mid, u1, us, tail2, by simpa using hl, hu, ?_⟩
        simp [hr, ht, hl, hu]
    · rw [if_neg hb] at h
      exact Option.noConfusion h

theorem containsLinkPattern_of_tryMatchAt {s label url : List Char}
    (h : tryMatchAt s = some (label, url)) : containsLinkPattern s = true := by
  obtain ⟨l1, ls, u1, us, tail, hl, hu, hs⟩ := tryMatchAt_spec h
  rw [hs, hl, hu]
  exact containsLinkPattern_of_shape ls us tail

theorem findMatchesF_nil_of_no_pattern :
    ∀ (fuel : Nat) (s : List Char), containsLinkPattern s = false →
      findMatchesF fuel s = [] := by
  intro fuel
  induction fuel with
  | zero => intro s h; cases s <;> rfl
  | succ f ih =>
    intro s h
    match s with
    | [] => rfl
    | c :: rest =>
      have hrest : containsLinkPattern rest = false := by
        by_contra hx
        rw [containsLinkPattern_cons c (by simpa using hx)] at h
        exact Bool.noConfusion h
      simp only [findMatchesF]
      cases htm : tryMatchAt (c :: rest) with
      | some lu =>
        obtain ⟨label, url⟩ := lu
        rw [containsLinkPattern_of_tryMatchAt htm] at h
        exact Bool.noConfusion h
      | none =>
        simp only
        exact ih rest hrest

theorem findMatches_nil_of_no_pattern {s : List Char}
    (h : containsLinkPattern s = false) : findMatches s = [] :=
  findMatchesF_nil_of_no_pattern _ s h

/-- C6 (amended): `convert_markdown_to_org` is the identity on any string
containing no markdown-link pattern `[label](url)` (non-empty label and
url), and hence is idempotent on such strings.  The other two conjuncts
of the original claim are refuted by the counterexample: the function is
NOT idempotent in general (a replacement can juxtapose an earlier `]`
with a later `(` and create a fresh match for a second pass), and a match
is NOT always rewritten in place to `[[url][label]]` with outside text
untouched (each match text is replaced everywhere in the evolving
content, which can rewrite inside — and thereby destroy — a later match
of the same pass). -/
theorem claim_C6 (x : String) (h : containsLinkPattern x.data = false) :
    convert_markdown_to_org x = x ∧
    convert_markdown_to_org (convert_markdown_to_org x) =
      convert_markdown_to_org x := by
  have hid : convert_markdown_to_org x = x := by
    unfold convert_markdown_to_org convertList
    rw [findMatches_nil_of_no_pattern h]
    rfl
  exact ⟨hid, by rw [hid, hid]⟩

theorem claim_C6_witness :
    containsLinkPattern ("see [docs] and (this), no links".data) = false ∧
    convert_markdown_to_org "see [docs] and (this), no links"
      = "see [docs] and (this), no links" :=
  ⟨by decide, (claim_C6 "see [docs] and (this), no links" (by decide)).1⟩

/-- C6 counterexample, refuting both failing conjuncts of the claim.
(1) Not idempotent: on `"[a](b)(c)"` one pass yields `"[[b][a]](c)"`; a
second pass matches the whole of that (the regex allows `]` inside a
label) and yields `"[[c][[b][a]]]"`, a different string.  (2) A match is
not rewritten in place with outside text untouched: on
`"[a](b) [x[a](b)](y)"` the matches of the original are `"[a](b)"` and
`"[x[a](b)"`, and the spec-described in-place rewrite gives
`"[[b][a]] [[b][x[a]]](y)"`; the code instead replaces `"[a](b)"`
everywhere, mangling the second match's text — which is then never
rewritten — and returns `"[[b][a]] [x[[b][a]]](y)"`.  CPython confirms
both runs. -/
theorem claim_C6_counterexample :
    (convert_markdown_to_org "[a](b)(c)" = "[[b][a]](c)" ∧
     convert_markdown_to_org (convert_markdown_to_org "[a](b)(c)")
       = "[[c][[b][a]]]" ∧
     convert_markdown_to_org (convert_markdown_to_org "[a](b)(c)")
       ≠ convert_markdown_to_org "[a](b)(c)") ∧
    (convert_markdown_to_org "[a](b) [x[a](b)](y)"
       = "[[b][a]] [x[[b][a]]](y)" ∧
     convert_markdown_spec "[a](b) [x[a](b)](y)"
       = "[[b][a]] [[b][x[a]]](y)" ∧
     convert_markdown_to_org "[a](b) [x[a](b)](y)"
       ≠ convert_markdown_spec "[a](b) [x[a](b)](y)") := by
  exact ⟨⟨by decide, by decide, by decide⟩, by decide, by decide, by decide⟩

/-! ## C9: the record set is never mutated -/

/-- C9: for both heading generators the post-call state is the pre-call
state — no project, section, item, label or user field is created,
updated or deleted by a conversion run.  The one caller-visible in-place
mutation in the source, `project_sections.sort(...)` inside
`generate_project_subheadings` (and the sorts of the freshly built item
lists below it), only ever acts on lists constructed inside
`generate_all_headings` / `generate_project_headings` (dict buckets and
comprehensions), which the state-threading wrappers make explicit: the
subheadings call hands back its items argument unchanged, and the
top-level calls hand back every state field unchanged. -/
theorem claim_C9 (fmt : TZFormatter) (fuel : Nat) (state : TodoistState)
    (project_id : String) (include_archived : Bool) :
    (generate_all_headings_st fmt fuel state include_archived).2 = state ∧
    (generate_project_headings_st fmt fuel state project_id include_archived).2
      = state ∧
    (∀ project_items project_sections project_level label_dict,
      (generate_project_subheadings_st fmt state fuel project_items
        project_sections project_level label_dict include_archived).2.1
        = project_items) :=
  ⟨rfl, rfl, fun _ _ _ _ => rfl⟩

/-! ## Infix machinery for locating timestamps inside rendered headings -/

theorem data_append (s t : String) : (s ++ t).data = s.data ++ t.data := rfl

theorem bind_ok_inv {ε α β : Type _} {e : Except ε α} {f : α → Except ε β}
    {b : β} (h : (e >>= f) = .ok b) : ∃ a, e = .ok a ∧ f a = .ok b := by
  cases e with
  | error err => exact absurd h (by simp [error_bind])
  | ok a => exact ⟨a, rfl, h⟩

theorem infix_append_left {α : Type _} {l a : List α} (b : List α)
    (h : l <:+: a) : l <:+: a ++ b := by
  obtain ⟨s, t, hst⟩ := h
  exact ⟨s, t ++ b, by rw [← hst]; simp⟩

theorem infix_append_right {α : Type _} (a : List α) {l b : List α}
    (h : l <:+: b) : l <:+: a ++ b := by
  obtain ⟨s, t, hst⟩ := h
  exact ⟨a ++ s, t, by rw [← hst]; simp⟩

theorem suffix_append_of_suffix {α : Type _} (a : List α) {l b : List α}
    (h : l <:+ b) : l <:+ a ++ b :=
  h.trans (List.suffix_append a b)

theorem mem_join_with_part {x : String} (sep : String) :
    ∀ {lines : List String}, x ∈ lines → x.data <:+: (join_with sep lines).data := by
  intro lines
  induction lines with
  | nil => intro h; exact absurd h (List.not_mem_nil x)
  | cons a rest ih =>
    intro h
    match rest with
    | [] =>
      obtain rfl : x = a := by simpa using h
      exact List.infix_rfl
    | b :: rest2 =>
      rcases List.mem_cons.mp h with rfl | hmem
      · show x.data <:+: (x ++ sep ++ join_with sep (b :: rest2)).data
        simp only [data_append, List.append_assoc]
        exact infix_append_left _ List.infix_rfl
      · show x.data <:+: (a ++ sep ++ join_with sep (b :: rest2)).data
        simp only [data_append, List.append_assoc]
        exact infix_append_right _ (infix_append_right _ (ih hmem))

/-- On success, the CLOSED/SCHEDULED/DEADLINE line is among the heading
lines whenever the timestamps object is truthy. -/
theorem get_heading_lines_mem_ts {heading_level : Nat} {todo_state content : String}
    {priority : Nat} {tags : List String} {timestamps : HeadingTimestamps}
    {description : String} {properties : List (String × String)} {lines : List String}
    (hok : get_heading_lines heading_level todo_state content priority tags
      timestamps description properties = .ok lines)
    (ht : truthyTimestamps timestamps = true) :
    (heading_spaces heading_level ++ " "
      ++ join_with " " (timestamps_list timestamps)) ∈ lines := by
  rw [get_heading_lines] at hok
  obtain ⟨m, hm, hrest⟩ := bind_ok_inv hok
  obtain rfl : _ = lines := (Except.ok.injEq _ _).mp hrest
  simp only [ht, if_pos]
  exact List.mem_cons.mpr (Or.inr (by simp))

/-- On success, every heading property contributes its own line. -/
theorem get_heading_lines_mem_prop {heading_level : Nat} {todo_state content : String}
    {priority : Nat} {tags : List String} {timestamps : HeadingTimestamps}
    {description : String} {properties : List (String × String)} {lines : List String}
    {n v : String}
    (hok : get_heading_lines heading_level todo_state content priority tags
      timestamps description properties = .ok lines)
    (hmem : (n, v) ∈ properties) :
    (heading_spaces heading_level ++ " :" ++ n ++ ": " ++ v) ∈ lines := by
  rw [get_heading_lines] at hok
  obtain ⟨m, hm, hrest⟩ := bind_ok_inv hok
  obtain rfl : _ = lines := (Except.ok.injEq _ _).mp hrest
  have hne : properties ≠ [] := by rintro rfl; exact absurd hmem (by simp)
  refine List.mem_cons.mpr (Or.inr ?_)
  apply List.mem_append.mpr; left
  apply List.mem_append.mpr; right
  simp only [property_lines, if_pos hne]
  refine List.mem_cons.mpr (Or.inr (List.mem_append.mpr (Or.inl ?_)))
  exact List.mem_map.mpr ⟨(n, v), hmem, rfl⟩

/-! ## C10: which timezone each timestamp of a heading uses -/

theorem scheduled_suffix_ts_line {t : HeadingTimestamps} {sched : String}
    (hs : t.scheduled = some sched) (hd : t.deadline = none) (hne : sched ≠ "") :
    ("SCHEDULED: " ++ sched).data <:+ (join_with " " (timestamps_list t)).data := by
  have hsc : truthyStr (some sched) = true := by simp [truthyStr, hne]
  have hdl : truthyStr t.deadline = false := by simp [hd, truthyStr]
  cases hc : truthyStr t.closed with
  | false =>
    simp only [timestamps_list, hc, hsc, hdl, hs, Bool.false_eq_true, if_false,
      if_true, Option.getD_some, List.nil_append, List.append_nil]
    exact List.suffix_rfl
  | true =>
    simp only [timestamps_list, hc, hsc, hdl, hs, Bool.false_eq_true, if_false,
      if_true, Option.getD_some, List.append_nil, List.singleton_append]
    show ("SCHEDULED: " ++ sched).data <:+
      ((("CLOSED: " ++ t.closed.getD "") ++ " ") ++ ("SCHEDULED: " ++ sched)).data
    rw [data_append]
    exact List.suffix_append _ _

theorem closed_infix_ts_line {t : HeadingTimestamps} {cl : String}
    (hc : t.closed = some cl) (hd : t.deadline = none) (hne : cl ≠ "") :
    ("CLOSED: " ++ cl).data <:+: (join_with " " (timestamps_list t)).data := by
  have hcl : truthyStr (some cl) = true := by simp [truthyStr, hne]
  have hdl : truthyStr t.deadline = false := by simp [hd, truthyStr]
  cases hs : truthyStr t.scheduled with
  | false =>
    simp only [timestamps_list, hcl, hc, hs, hdl, Bool.false_eq_true, if_false,
      if_true, Option.getD_some, List.append_nil, List.singleton_append]
    exact List.infix_rfl
  | true =>
    simp only [timestamps_list, hcl, hc, hs, hdl, if_true, Bool.false_eq_true,
      if_false, Option.getD_some, List.append_nil, List.singleton_append]
    exact ⟨[], (" " ++ ("SCHEDULED: " ++ t.scheduled.getD "")).data,
      by simp [join_with, data_append, List.append_assoc]⟩

theorem created_line_suffix (spaces v : String) :
    (" :CREATED: " ++ v).data <:+ (spaces ++ " :" ++ "CREATED" ++ ": " ++ v).data := by
  refine ⟨spaces.data, ?_⟩
  simp [data_append, List.append_assoc, List.cons_append]

theorem infix_heading_of_mem_line {x : String} {lines : List String}
    {target : List Char} (hmem : x ∈ lines) (ht : target <:+: x.data) :
    target <:+: (newline_join lines ++ "\n").data :=
  infix_append_left _ (ht.trans (mem_join_with_part "\n" hmem))

/-- Dissect a successful `get_item_heading` call into the label lookup,
the line rendering and the final join. -/
theorem get_item_heading_parts {fmt : TZFormatter} {state : TodoistState}
    {item : Item} {level : Nat} {label_dict : String → Option Label} {h : String}
    (hok : get_item_heading fmt state item level label_dict = .ok h) :
    ∃ ils lines,
      lookupLabels label_dict item.labels = .ok ils ∧
      get_heading_lines level
        (if truthyStr item.completed_at then "DONE" else "TODO")
        (convert_markdown_to_org item.content) item.priority
        (match item.due with
          | some d => if d.is_recurring then
              ((pySortByKey (fun l => l.item_order) ils).map (fun l => l.name))
                ++ ["IS_RECURRING"]
            else (pySortByKey (fun l => l.item_order) ils).map (fun l => l.name)
          | none => (pySortByKey (fun l => l.item_order) ils).map (fun l => l.name))
        { closed := if truthyStr item.completed_at then
            some (fmt (item.completed_at.getD "") state.user_timezone false)
          else none
          scheduled := match item.due with
            | some d => some (fmt d.date (item_due_tz state.user_timezone d) true)
            | none => none
          deadline := none }
        (convert_markdown_to_org item.description)
        [("CREATED", fmt item.added_at state.user_timezone false)] = .ok lines ∧
      h = newline_join lines ++ "\n" := by
  rw [get_item_heading] at hok
  obtain ⟨ils, hL, h2⟩ := bind_ok_inv hok
  obtain ⟨lines, hG, h3⟩ := bind_ok_inv h2
  exact ⟨ils, lines, hL, hG, ((Except.ok.injEq _ _).mp h3).symm⟩

/-- Dissect a successful `get_section_heading` call. -/
theorem get_section_heading_parts {fmt : TZFormatter} {state : TodoistState}
    {sec : Section} {level : Nat} {h : String}
    (hok : get_section_heading fmt state sec level = .ok h) :
    ∃ lines,
      get_heading_lines level "" sec.name 1 (section_heading_tags sec) {} ""
        [("CREATED", fmt sec.added_at state.user_timezone false)] = .ok lines ∧
      h = newline_join lines ++ "\n" := by
  rw [get_section_heading] at hok
  obtain ⟨lines, hG, h3⟩ := bind_ok_inv hok
  exact ⟨lines, hG, ((Except.ok.injEq _ _).mp h3).symm⟩

/-- C10 (amended): for every formatter, the SCHEDULED timestamp of an item
heading is the formatter applied in the due info's own timezone exactly
when that field is non-null AND non-empty (Python truthiness, `item_due_tz`),
otherwise in the user's timezone; the CLOSED timestamp and the CREATED
property of item and section headings always use the user's timezone.  The
nonemptiness side conditions only rule out formatter outputs that Python's
truthiness would silently drop from the timestamps line. -/
theorem claim_C10 (fmt : TZFormatter) (state : TodoistState) (item : Item)
    (level : Nat) (label_dict : String → Option Label) (sec : Section) :
    (∀ user_tz d, item_due_tz user_tz d =
      (match d.timezone with
        | some tz => if tz = "" then user_tz else tz
        | none => user_tz)) ∧
    (∀ h d, get_item_heading fmt state item level label_dict = .ok h →
      item.due = some d →
      fmt d.date (item_due_tz state.user_timezone d) true ≠ "" →
      ("SCHEDULED: " ++ fmt d.date (item_due_tz state.user_timezone d) true).data
        <:+: h.data) ∧
    (∀ h c, get_item_heading fmt state item level label_dict = .ok h →
      item.completed_at = some c → c ≠ "" →
      fmt c state.user_timezone false ≠ "" →
      ("CLOSED: " ++ fmt c state.user_timezone false).data <:+: h.data) ∧
    (∀ h, get_item_heading fmt state item level label_dict = .ok h →
      (" :CREATED: " ++ fmt item.added_at state.user_timezone false).data
        <:+: h.data) ∧
    (∀ h, get_section_heading fmt state sec level = .ok h →
      (" :CREATED: " ++ fmt sec.added_at state.user_timezone false).data
        <:+: h.data) := by
  refine ⟨?_, ?_, ?_, ?_, ?_⟩
  · intro user_tz d
    cases htz : d.timezone with
    | none => simp [item_due_tz, truthyStr, htz]
    | some tz =>
      by_cases he : tz = ""
      · simp [item_due_tz, truthyStr, htz, he]
      · simp [item_due_tz, truthyStr, htz, he]
  · intro h d hok hdue hne
    obtain ⟨ils, lines, hL, hG, rfl⟩ := get_item_heading_parts hok
    have hmem := get_heading_lines_mem_ts hG
      (by simp [truthyTimestamps, truthyStr, hdue, hne])
    refine infix_heading_of_mem_line hmem ?_
    have hsuf := @scheduled_suffix_ts_line
      { closed := if truthyStr item.completed_at then
          some (fmt (item.completed_at.getD "") state.user_timezone false)
        else none
        scheduled := match item.due with
          | some d => some (fmt d.date (item_due_tz state.user_timezone d) true)
          | none => none
        deadline := none }
      (fmt d.date (item_due_tz state.user_timezone d) true)
      (by simp [hdue]) rfl hne
    have := suffix_append_of_suffix
      ((heading_spaces level ++ " ").data) hsuf
    exact this.isInfix
  · intro h c hok hcomp hcne hne
    obtain ⟨ils, lines, hL, hG, rfl⟩ := get_item_heading_parts hok
    have htruthy : truthyStr item.completed_at = true := by
      simp [hcomp, truthyStr, hcne]
    have hmem := get_heading_lines_mem_ts hG
      (by simp [truthyTimestamps, truthyStr, hcomp, hcne, hne])
    refine infix_heading_of_mem_line hmem ?_
    have hinf := @closed_infix_ts_line
      { closed := if truthyStr item.completed_at then
          some (fmt (item.completed_at.getD "") state.user_timezone false)
        else none
        scheduled := match item.due with
          | some d => some (fmt d.date (item_due_tz state.user_timezone d) true)
          | none => none
        deadline := none }
      (fmt c state.user_timezone false)
      (by simp [hcomp, truthyStr, hcne]) rfl hne
    exact infix_append_right _ hinf
  · intro h hok
    obtain ⟨ils, lines, hL, hG, rfl⟩ := get_item_heading_parts hok
    have hmem := get_heading_lines_mem_prop hG
      (n := "CREATED") (v := fmt item.added_at state.user_timezone false) (by simp)
    exact infix_heading_of_mem_line hmem (created_line_suffix _ _).isInfix
  · intro h hok
    obtain ⟨lines, hG, rfl⟩ := get_section_heading_parts hok
    have hmem := get_heading_lines_mem_prop hG
      (n := "CREATED") (v := fmt sec.added_at state.user_timezone false) (by simp)
    exact infix_heading_of_mem_line hmem (created_line_suffix _ _).isInfix

set_option maxRecDepth 4000 in
set_option maxHeartbeats 1000000 in
/-- C10 counterexample: for a due timezone that is non-null but EMPTY
(`some ""`), the claim's selection (`claimedScheduledTz`, written from the
claim's "when that field is non-null") picks `""`, but the rendered
heading formats SCHEDULED with the USER timezone ("UTZ"): the code tests
Python truthiness, not nullness. -/
theorem claim_C10_counterexample :
    claimedScheduledTz "UTZ" ⟨"2024-05-05", some "", false, "d"⟩ = "" ∧
    fmtC10 "2024-05-05" "" true = "TZ[]" ∧
    get_item_heading fmtC10 stC10 itemC10 1 (fun _ => none) =
      .ok "* TODO c\n  SCHEDULED: TZ[UTZ]\n  :PROPERTIES:\n  :CREATED: TZ[UTZ]\n  :END:\n" ∧
    ("SCHEDULED: TZ[UTZ]").data <:+:
      ("* TODO c\n  SCHEDULED: TZ[UTZ]\n  :PROPERTIES:\n  :CREATED: TZ[UTZ]\n  :END:\n" : String).data ∧
    ¬ (("SCHEDULED: TZ[]").data <:+:
      ("* TODO c\n  SCHEDULED: TZ[UTZ]\n  :PROPERTIES:\n  :CREATED: TZ[UTZ]\n  :END:\n" : String).data) :=
  ⟨rfl, rfl, by decide, by decide, by decide⟩

set_option maxRecDepth 4000 in
set_option maxHeartbeats 1000000 in
theorem claim_C10_witness :
    ("SCHEDULED: " ++ fmtC10w "D"
        (item_due_tz "Paris" ⟨"D", some "Tokyo", false, "s"⟩) true).data <:+:
      ("* DONE c\n  CLOSED: W(DONE-AT,Paris,i) SCHEDULED: W(D,Tokyo,a)\n  :PROPERTIES:\n  :CREATED: W(ADD,Paris,i)\n  :END:\n" : String).data ∧
    ("CLOSED: " ++ fmtC10w "DONE-AT" "Paris" false).data <:+:
      ("* DONE c\n  CLOSED: W(DONE-AT,Paris,i) SCHEDULED: W(D,Tokyo,a)\n  :PROPERTIES:\n  :CREATED: W(ADD,Paris,i)\n  :END:\n" : String).data ∧
    (" :CREATED: " ++ fmtC10w "ADD" "Paris" false).data <:+:
      ("* DONE c\n  CLOSED: W(DONE-AT,Paris,i) SCHEDULED: W(D,Tokyo,a)\n  :PROPERTIES:\n  :CREATED: W(ADD,Paris,i)\n  :END:\n" : String).data ∧
    (" :CREATED: " ++ fmtC10w "SADD" "Paris" false).data <:+:
      ("** SN\n   :PROPERTIES:\n   :CREATED: W(SADD,Paris,i)\n   :END:\n" : String).data := by
  have hok : get_item_heading fmtC10w stC10w itemC10w 1 (fun _ => none) =
      .ok "* DONE c\n  CLOSED: W(DONE-AT,Paris,i) SCHEDULED: W(D,Tokyo,a)\n  :PROPERTIES:\n  :CREATED: W(ADD,Paris,i)\n  :END:\n" := by
    decide
  have hsec : get_section_heading fmtC10w stC10w secC10w 2 =
      .ok "** SN\n   :PROPERTIES:\n   :CREATED: W(SADD,Paris,i)\n   :END:\n" := by
    decide
  have hC := claim_C10 fmtC10w stC10w itemC10w 1 (fun _ => none) secC10w
  have hC2 := claim_C10 fmtC10w stC10w itemC10w 2 (fun _ => none) secC10w
  have hd : itemC10w.due = some ⟨"D", some "Tokyo", false, "s"⟩ := rfl
  have hne1 : fmtC10w "D" (item_due_tz "Paris" ⟨"D", some "Tokyo", false, "s"⟩) true
      ≠ "" := by decide
  have hcm : itemC10w.completed_at = some "DONE-AT" := rfl
  have hne2 : ("DONE-AT" : String) ≠ "" := by decide
  have hne3 : fmtC10w "DONE-AT" "Paris" false ≠ "" := by decide
  exact ⟨hC.2.1 _ ⟨"D", some "Tokyo", false, "s"⟩ hok hd hne1,
    hC.2.2.1 _ "DONE-AT" hok hcm hne2 hne3,
    hC.2.2.2.1 _ hok,
    hC2.2.2.2.2 _ hsec⟩

/-! ## C1: the project-scoped builder against the all-projects builder -/

theorem exceptFlatMap_ok_of_mem {ε : Type _} {f : α → Except ε (List β)}
    {l : List α} {out : List β} {x : α}
    (hout : exceptFlatMap f l = .ok out) (hx : x ∈ l) :
    ∃ pre post blk, out = pre ++ blk ++ post ∧ f x = .ok blk := by
  induction l generalizing out with
  | nil => exact absurd hx (List.not_mem_nil x)
  | cons a as ih =>
    rw [exceptFlatMap] at hout
    obtain ⟨xs, hfa, h2⟩ := bind_ok_inv hout
    obtain ⟨ys, hrest, h3⟩ := bind_ok_inv h2
    obtain rfl : _ = out := (Except.ok.injEq _ _).mp h3
    rcases List.mem_cons.mp hx with rfl | hmem
    · exact ⟨[], ys, xs, by simp, hfa⟩
    · obtain ⟨pre, post, blk, heq, hfx⟩ := ih hrest hmem
      exact ⟨xs ++ pre, post, blk, by simp [heq], hfx⟩

/-- C1 (amended): whenever the full-state run succeeds, and (i) every
label's id equals its name (the scoped builder keys its label dict by id
while the heading code looks labels up by name), and (ii) the project is
not archived or archived output was requested (the scoped builder never
skips the requested project itself), the project-scoped builder's output
is exactly the contiguous block of `generate_all_headings` consisting of
that project's root heading followed by all of its section and item
subheadings. -/
theorem claim_C1 (fmt : TZFormatter) (fuel : Nat) (state : TodoistState)
    (project_id : String) (include_archived : Bool) (p : Project)
    (out : List String)
    (hp : dictLookup (fun q => q.id) state.projects project_id = some p)
    (hlab : ∀ l ∈ state.labels, l.id = l.name)
    (harch : include_archived = true ∨ p.is_archived = false)
    (hout : generate_all_headings fmt fuel state include_archived = .ok out) :
    ∃ pre post blk level root sub,
      out = pre ++ blk ++ post ∧
      generate_project_headings fmt fuel state project_id include_archived
        = .ok blk ∧
      blk = root :: sub ∧
      get_object_level (dictLookup (fun q => q.id) state.projects) fuel
        project_id = .ok level ∧
      get_project_root_heading p level = .ok root ∧
      generate_project_subheadings fmt state fuel
        (state.items.filter (fun i => i.project_id = project_id))
        (state.sections.filter (fun s => s.project_id = project_id)) level
        (dictLookup (fun l => l.id) state.labels) include_archived
        = .ok sub := by
  obtain ⟨hmem, hpid⟩ := dictLookup_mem hp
  rw [generate_all_headings] at hout
  obtain ⟨pre, post, blk, hsplit, hblk⟩ := exceptFlatMap_ok_of_mem hout hmem
  have harch2 : (!include_archived && p.is_archived) = false := by
    rcases harch with rfl | h
    · simp
    · simp [h]
  rw [project_block] at hblk
  simp only [harch2, Bool.false_eq_true, if_false] at hblk
  obtain ⟨level, hlevel, hblk2⟩ := bind_ok_inv hblk
  obtain ⟨root, hroot, hblk3⟩ := bind_ok_inv hblk2
  obtain ⟨sub, hsub, hblk4⟩ := bind_ok_inv hblk3
  obtain rfl : _ = blk := (Except.ok.injEq _ _).mp hblk4
  have hdict : dictLookup (fun l => l.id) state.labels
      = dictLookup (fun l => l.name) state.labels :=
    dictLookup_congr hlab
  rw [hpid] at hlevel hsub
  rw [← hdict] at hsub
  refine ⟨pre, post, _, level, root, sub, hsplit, ?_, rfl, hlevel, hroot, hsub⟩
  rw [generate_project_headings]
  simp only [hp, hlevel, hroot, hsub, ok_bind]

set_option maxRecDepth 8000 in
set_option maxHeartbeats 1000000 in
theorem claim_C1_witness :
    ∃ pre post blk level root sub,
      ["* P\n  :PROPERTIES:\n  :CATEGORY: P\n  :END:\n",
       "** S\n   :PROPERTIES:\n   :CREATED: F(SA|Z)\n   :END:\n",
       "*** TODO top :l1:\n    :PROPERTIES:\n    :CREATED: F(A1|Z)\n    :END:\n",
       "**** TODO kid\n     :PROPERTIES:\n     :CREATED: F(A2|Z)\n     :END:\n"]
        = pre ++ blk ++ post ∧
      generate_project_headings fmtC1 10 stC1w "p" true = .ok blk ∧
      blk = root :: sub ∧
      get_object_level (dictLookup (fun q => q.id) stC1w.projects) 10 "p"
        = .ok level ∧
      get_project_root_heading ⟨"p", "P", none, false⟩ level = .ok root ∧
      generate_project_subheadings fmtC1 stC1w 10
        (stC1w.items.filter (fun i => i.project_id = "p"))
        (stC1w.sections.filter (fun s => s.project_id = "p")) level
        (dictLookup (fun l => l.id) stC1w.labels) true = .ok sub := by
  have hout : generate_all_headings fmtC1 10 stC1w true =
      .ok ["* P\n  :PROPERTIES:\n  :CATEGORY: P\n  :END:\n",
        "** S\n   :PROPERTIES:\n   :CREATED: F(SA|Z)\n   :END:\n",
        "*** TODO top :l1:\n    :PROPERTIES:\n    :CREATED: F(A1|Z)\n    :END:\n",
        "**** TODO kid\n     :PROPERTIES:\n     :CREATED: F(A2|Z)\n     :END:\n"] := by
    decide
  exact claim_C1 fmtC1 10 stC1w "p" true ⟨"p", "P", none, false⟩ _
    (by decide) (by decide) (Or.inl rfl) hout

set_option maxRecDepth 8000 in
set_option maxHeartbeats 1000000 in
/-- C1 counterexample, two independent failures of the claim as stated.
(a) With an item carrying a label whose id differs from its name, the
all-projects builder succeeds while the scoped builder raises `KeyError`
(its label dict is keyed by id, the lookup is by name), so the scoped
output matches no subsequence of the full output.  (b) For an archived
project with `include_archived = false`, the full output is empty while
the scoped builder still emits the project's heading. -/
theorem claim_C1_counterexample :
    generate_all_headings fmtC1 10 stC1a true =
      .ok ["* P\n  :PROPERTIES:\n  :CATEGORY: P\n  :END:\n",
        "** TODO task :lab:\n   :PROPERTIES:\n   :CREATED: F(AD|Z)\n   :END:\n"] ∧
    generate_project_headings fmtC1 10 stC1a "p" true
      = .error (.keyError "lab") ∧
    generate_all_headings fmtC1 10 stC1b false = .ok [] ∧
    generate_project_headings fmtC1 10 stC1b "q" false
      = .ok ["* Q :ARCHIVED:\n  :PROPERTIES:\n  :CATEGORY: Q\n  :END:\n"] :=
  ⟨by decide, by decide, by decide, by decide⟩

/-! ## Correspondence between the string generators and their traces -/

theorem renderItems_append {fmt : TZFormatter} {state : TodoistState}
    {ld : String → Option Label} {a b : List (Item × Nat)} {xa xb : List String}
    (ha : renderItems fmt state ld a = .ok xa)
    (hb : renderItems fmt state ld b = .ok xb) :
    renderItems fmt state ld (a ++ b) = .ok (xa ++ xb) := by
  induction a generalizing xa with
  | nil =>
    obtain rfl : [] = xa := (Except.ok.injEq _ _).mp ha
    simpa using hb
  | cons e rest ih =>
    rw [renderItems] at ha
    obtain ⟨h, hh, h2⟩ := bind_ok_inv ha
    obtain ⟨tail, htail, h3⟩ := bind_ok_inv h2
    obtain rfl : _ = xa := (Except.ok.injEq _ _).mp h3
    rw [List.cons_append, renderItems]
    simp only [hh, ok_bind, ih htail, ok_bind]
    rfl

theorem renderSubEvs_append {fmt : TZFormatter} {state : TodoistState}
    {ld : String → Option Label} {plvl : Nat}
    {a b : List (Section ⊕ (Item × Nat))} {xa xb : List String}
    (ha : renderSubEvs fmt state ld plvl a = .ok xa)
    (hb : renderSubEvs fmt state ld plvl b = .ok xb) :
    renderSubEvs fmt state ld plvl (a ++ b) = .ok (xa ++ xb) := by
  induction a generalizing xa with
  | nil =>
    obtain rfl : [] = xa := (Except.ok.injEq _ _).mp ha
    simpa using hb
  | cons e rest ih =>
    match e with
    | Sum.inl s =>
      rw [renderSubEvs] at ha
      obtain ⟨h, hh, h2⟩ := bind_ok_inv ha
      obtain ⟨tail, htail, h3⟩ := bind_ok_inv h2
      obtain rfl : _ = xa := (Except.ok.injEq _ _).mp h3
      rw [List.cons_append, renderSubEvs]
      simp only [hh, ok_bind, ih htail, ok_bind]
      rfl
    | Sum.inr p =>
      rw [renderSubEvs] at ha
      obtain ⟨h, hh, h2⟩ := bind_ok_inv ha
      obtain ⟨tail, htail, h3⟩ := bind_ok_inv h2
      obtain rfl : _ = xa := (Except.ok.injEq _ _).mp h3
      rw [List.cons_append, renderSubEvs]
      simp only [hh, ok_bind, ih htail, ok_bind]
      rfl

theorem renderSubEvs_map_inr {fmt : TZFormatter} {state : TodoistState}
    {ld : String → Option Label} {plvl : Nat} {a : List (Item × Nat)} :
    renderSubEvs fmt state ld plvl (a.map Sum.inr) = renderItems fmt state ld a := by
  induction a with
  | nil => rfl
  | cons e rest ih =>
    rw [List.map_cons, renderSubEvs, renderItems, ih]

theorem renderEvs_append {fmt : TZFormatter} {state : TodoistState}
    {ld : String → Option Label} {a b : List Ev} {xa xb : List String}
    (ha : renderEvs fmt state ld a = .ok xa)
    (hb : renderEvs fmt state ld b = .ok xb) :
    renderEvs fmt state ld (a ++ b) = .ok (xa ++ xb) := by
  induction a generalizing xa with
  | nil =>
    obtain rfl : [] = xa := (Except.ok.injEq _ _).mp ha
    simpa using hb
  | cons e rest ih =>
    rw [renderEvs] at ha
    obtain ⟨h, hh, h2⟩ := bind_ok_inv ha
    obtain ⟨tail, htail, h3⟩ := bind_ok_inv h2
    obtain rfl : _ = xa := (Except.ok.injEq _ _).mp h3
    rw [List.cons_append, renderEvs]
    simp only [hh, ok_bind, ih htail, ok_bind]
    rfl

theorem match_children_ok {ch : String → Option (List Item)} {k : String}
    {cs : List Item}
    (h : (match ch k with
          | none => Except.error (ConvErr.keyError k)
          | some cs => Except.ok cs) = Except.ok cs) :
    ch k = some cs := by
  cases hk : ch k with
  | none => rw [hk] at h; exact absurd h (by simp)
  | some cs2 =>
    rw [hk] at h
    obtain rfl : cs2 = cs := by simpa using h
    rfl

theorem traceItemsList_cons (ch : String → Option (List Item)) (fuel : Nat)
    (i : Item) (rest : List Item) (level : Nat) :
    traceItemsList ch fuel (i :: rest) level =
      (match ch i.id with
       | none => .error (.keyError i.id)
       | some cs => do
          let sub ← trace_item_headings ch fuel cs (level + 1)
          let tail ← traceItemsList ch fuel rest level
          .ok ((i, level) :: sub ++ tail)) := by
  rw [traceItemsList, List.foldr_cons]
  cases ch i.id with
  | none => simp [error_bind]
  | some cs => rfl

theorem genItemsList_cons (fmt : TZFormatter) (state : TodoistState)
    (ch : String → Option (List Item)) (ld : String → Option Label) (fuel : Nat)
    (i : Item) (rest : List Item) (level : Nat) :
    genItemsList fmt state ch ld fuel (i :: rest) level =
      (do
        let h ← get_item_heading fmt state i level ld
        match ch i.id with
        | none => (.error (.keyError i.id) : Except ConvErr (List String))
        | some cs => do
          let sub ← generate_item_headings fmt state ch ld fuel cs (level + 1)
          let tail ← genItemsList fmt state ch ld fuel rest level
          .ok (h :: sub ++ tail)) := by
  rw [genItemsList, List.foldr_cons]
  apply congrArg
  funext h2
  cases ch i.id with
  | none => simp [error_bind]
  | some cs => rfl

/-- Items correspondence: a successful string run has a successful trace
run that renders back to it. -/
theorem gen_items_trace {fmt : TZFormatter} {state : TodoistState}
    {ch : String → Option (List Item)} {ld : String → Option Label} :
    ∀ fuel,
      (∀ items level out,
        generate_item_headings fmt state ch ld fuel items level = .ok out →
        ∃ tr, trace_item_headings ch fuel items level = .ok tr ∧
          renderItems fmt state ld tr = .ok out) ∧
      (∀ items level out,
        genItemsList fmt state ch ld fuel items level = .ok out →
        ∃ tr, traceItemsList ch fuel items level = .ok tr ∧
          renderItems fmt state ld tr = .ok out) := by
  intro fuel
  induction fuel with
  | zero =>
    constructor
    · intro items level out h
      exact absurd h (by simp [generate_item_headings])
    · intro items level out h
      match items with
      | [] =>
        obtain rfl : [] = out := (Except.ok.injEq _ _).mp h
        exact ⟨[], rfl, rfl⟩
      | i :: rest =>
        rw [genItemsList_cons] at h
        obtain ⟨hstr, hh, h2⟩ := bind_ok_inv h
        cases hk : ch i.id with
        | none =>
          rw [hk] at h2
          exact Except.noConfusion h2
        | some cs =>
          rw [hk] at h2
          obtain ⟨sub, hsub, h4⟩ := bind_ok_inv h2
          exact absurd hsub (by simp [generate_item_headings])
  | succ f ih =>
    have hP : ∀ items level out,
        generate_item_headings fmt state ch ld (f + 1) items level = .ok out →
        ∃ tr, trace_item_headings ch (f + 1) items level = .ok tr ∧
          renderItems fmt state ld tr = .ok out := by
      intro items level out h
      rw [generate_item_headings_succ] at h
      obtain ⟨tr, htr, hr⟩ := ih.2 _ _ _ h
      exact ⟨tr, by rw [trace_item_headings_succ]; exact htr, hr⟩
    refine ⟨hP, ?_⟩
    intro items level out h
    induction items generalizing out with
    | nil =>
      obtain rfl : [] = out := (Except.ok.injEq _ _).mp h
      exact ⟨[], rfl, rfl⟩
    | cons i rest ihl =>
      rw [genItemsList_cons] at h
      obtain ⟨hstr, hh, h2⟩ := bind_ok_inv h
      cases hk : ch i.id with
      | none =>
        rw [hk] at h2
        exact Except.noConfusion h2
      | some cs =>
        rw [hk] at h2
        obtain ⟨sub, hsub, h4⟩ := bind_ok_inv h2
        obtain ⟨tail, htail, h5⟩ := bind_ok_inv h4
        obtain rfl : _ = out := (Except.ok.injEq _ _).mp h5
        obtain ⟨trsub, htrsub, hrsub⟩ := hP _ _ _ hsub
        obtain ⟨trtail, htrtail, hrtail⟩ := ihl _ htail
        refine ⟨(i, level) :: trsub ++ trtail, ?_, ?_⟩
        · rw [traceItemsList_cons, hk]
          simp only [htrsub, ok_bind, htrtail]
        · show (do
              let hx ← get_item_heading fmt state i level ld
              let tailx ← renderItems fmt state ld (trsub ++ trtail)
              Except.ok (hx :: tailx)) = Except.ok (hstr :: sub ++ tail)
          simp only [hh, ok_bind, renderItems_append hrsub hrtail]
          rfl

theorem gen_sections_trace {fmt : TZFormatter} {state : TodoistState}
    {pitems : List Item} {ld : String → Option Label} {ia : Bool}
    {fuel plvl : Nat} :
    ∀ secs out,
      gen_section_blocks fmt state pitems ld ia fuel plvl secs = .ok out →
      ∃ tr, trace_section_blocks pitems ia fuel plvl secs = .ok tr ∧
        renderSubEvs fmt state ld plvl tr = .ok out := by
  intro secs
  induction secs with
  | nil =>
    intro out h
    obtain rfl : [] = out := (Except.ok.injEq _ _).mp h
    exact ⟨[], rfl, rfl⟩
  | cons sec rest ih =>
    intro out h
    rw [gen_section_blocks] at h
    by_cases hskip : (!ia && sec.is_archived) = true
    · rw [if_pos hskip] at h
      obtain ⟨tr, htr, hr⟩ := ih _ h
      exact ⟨tr, by rw [trace_section_blocks, if_pos hskip]; exact htr, hr⟩
    · rw [if_neg hskip] at h
      obtain ⟨hsec, hh, h2⟩ := bind_ok_inv h
      obtain ⟨sub, hsub, h3⟩ := bind_ok_inv h2
      obtain ⟨tail, htail, h4⟩ := bind_ok_inv h3
      obtain rfl : _ = out := (Except.ok.injEq _ _).mp h4
      obtain ⟨trsub, htrsub, hrsub⟩ := (gen_items_trace fuel).1 _ _ _ hsub
      obtain ⟨trtail, htrtail, hrtail⟩ := ih _ htail
      refine ⟨Sum.inl sec :: trsub.map Sum.inr ++ trtail, ?_, ?_⟩
      · rw [trace_section_blocks, if_neg hskip]
        simp only [htrsub, ok_bind, htrtail]
      · have ha : renderSubEvs fmt state ld plvl (trsub.map Sum.inr) = .ok sub := by
          rw [renderSubEvs_map_inr]; exact hrsub
        show (do
            let hx ← get_section_heading fmt state sec (plvl + 1)
            let tailx ← renderSubEvs fmt state ld plvl (trsub.map Sum.inr ++ trtail)
            Except.ok (hx :: tailx)) = Except.ok (hsec :: sub ++ tail)
        simp only [hh, ok_bind, renderSubEvs_append ha hrtail]
        rfl

theorem gen_subheadings_trace {fmt : TZFormatter} {state : TodoistState}
    {fuel : Nat} {pitems : List Item} {psecs : List Section} {plvl : Nat}
    {ld : String → Option Label} {ia : Bool} {out : List String}
    (h : generate_project_subheadings fmt state fuel pitems psecs plvl ld ia
      = .ok out) :
    ∃ tr, trace_project_subheadings fuel pitems psecs plvl ia = .ok tr ∧
      renderSubEvs fmt state ld plvl tr = .ok out := by
  rw [generate_project_subheadings] at h
  cases hbs : bad_section_item pitems
      ((pySortByKey (fun s => s.section_order) psecs).map (fun s => s.id)) with
  | some bad =>
    simp only [hbs] at h
    exact Except.noConfusion h
  | none =>
    simp only [hbs] at h
    cases hbp : bad_parent_item pitems with
    | some bad =>
      simp only [hbp] at h
      exact Except.noConfusion h
    | none =>
      simp only [hbp] at h
      obtain ⟨out0, h0, h2⟩ := bind_ok_inv h
      obtain ⟨rest, hrest, h3⟩ := bind_ok_inv h2
      obtain rfl : _ = out := (Except.ok.injEq _ _).mp h3
      obtain ⟨tr0, htr0, hr0⟩ := (gen_items_trace fuel).1 _ _ _ h0
      obtain ⟨trS, htrS, hrS⟩ := gen_sections_trace _ _ hrest
      refine ⟨tr0.map Sum.inr ++ trS, ?_, ?_⟩
      · rw [trace_project_subheadings]
        simp only [hbs, hbp, htr0, ok_bind, htrS]
      · have ha : renderSubEvs fmt state ld plvl (tr0.map Sum.inr) = .ok out0 := by
          rw [renderSubEvs_map_inr]; exact hr0
        exact renderSubEvs_append ha hrS

theorem renderEvs_map_sub {fmt : TZFormatter} {state : TodoistState}
    {ld : String → Option Label} {level : Nat} :
    ∀ trS : List (Section ⊕ (Item × Nat)),
      renderEvs fmt state ld (trS.map (fun e => match e with
        | Sum.inl s => Ev.sec s (level + 1)
        | Sum.inr q => Ev.item q.1 q.2)) = renderSubEvs fmt state ld level trS := by
  intro trS
  induction trS with
  | nil => rfl
  | cons e rest ih =>
    match e with
    | Sum.inl s =>
      rw [List.map_cons]
      show (do
          let hx ← get_section_heading fmt state s (level + 1)
          let tailx ← renderEvs fmt state ld (rest.map _)
          Except.ok (hx :: tailx)) = _
      rw [ih]
      rfl
    | Sum.inr q =>
      rw [List.map_cons]
      show (do
          let hx ← get_item_heading fmt state q.1 q.2 ld
          let tailx ← renderEvs fmt state ld (rest.map _)
          Except.ok (hx :: tailx)) = _
      rw [ih]
      rfl

theorem project_block_trace {fmt : TZFormatter} {fuel : Nat}
    {state : TodoistState} {ia : Bool} {p : Project} {out : List String}
    (h : project_block fmt fuel state ia p = .ok out) :
    ∃ tr, trace_project_block fuel state ia p = .ok tr ∧
      renderEvs fmt state (dictLookup (fun l => l.name) state.labels) tr
        = .ok out := by
  rw [project_block] at h
  by_cases hskip : (!ia && p.is_archived) = true
  · rw [if_pos hskip] at h
    obtain rfl : [] = out := (Except.ok.injEq _ _).mp h
    exact ⟨[], by rw [trace_project_block, if_pos hskip], rfl⟩
  · rw [if_neg hskip] at h
    obtain ⟨level, hlevel, h2⟩ := bind_ok_inv h
    obtain ⟨root, hroot, h3⟩ := bind_ok_inv h2
    obtain ⟨sub, hsub, h4⟩ := bind_ok_inv h3
    obtain rfl : _ = out := (Except.ok.injEq _ _).mp h4
    obtain ⟨trS, htrS, hrS⟩ := gen_subheadings_trace hsub
    refine ⟨Ev.proj p level :: trS.map (fun e => match e with
      | Sum.inl s => Ev.sec s (level + 1)
      | Sum.inr q => Ev.item q.1 q.2), ?_, ?_⟩
    · rw [trace_project_block, if_neg hskip]
      simp only [hlevel, ok_bind, htrS]
    · show (do
          let hx ← get_project_root_heading p level
          let tailx ← renderEvs fmt state
            (dictLookup (fun l => l.name) state.labels) (trS.map _)
          Except.ok (hx :: tailx)) = Except.ok (root :: sub)
      simp only [hroot, ok_bind, renderEvs_map_sub, hrS]

theorem gen_all_trace_aux {fmt : TZFormatter} {fuel : Nat}
    {state : TodoistState} {ia : Bool} :
    ∀ (l : List Project) (out : List String),
      exceptFlatMap (project_block fmt fuel state ia) l = .ok out →
      ∃ tr, exceptFlatMap (trace_project_block fuel state ia) l = .ok tr ∧
        renderEvs fmt state (dictLookup (fun lb => lb.name) state.labels) tr
          = .ok out := by
  intro l
  induction l with
  | nil =>
    intro out h
    obtain rfl : [] = out := (Except.ok.injEq _ _).mp h
    exact ⟨[], rfl, rfl⟩
  | cons p rest ih =>
    intro out h
    rw [exceptFlatMap] at h
    obtain ⟨blk, hblk, h2⟩ := bind_ok_inv h
    obtain ⟨tail, htail, h3⟩ := bind_ok_inv h2
    obtain rfl : _ = out := (Except.ok.injEq _ _).mp h3
    obtain ⟨trp, htrp, hrp⟩ := project_block_trace hblk
    obtain ⟨trt, htrt, hrt⟩ := ih _ htail
    refine ⟨trp ++ trt, ?_, renderEvs_append hrp hrt⟩
    rw [exceptFlatMap]
    simp only [htrp, ok_bind, htrt]

/-- Full correspondence: a successful `generate_all_headings` run has a
successful trace run that renders back to it, event by event. -/
theorem gen_all_trace {fmt : TZFormatter} {fuel : Nat} {state : TodoistState}
    {ia : Bool} {out : List String}
    (h : generate_all_headings fmt fuel state ia = .ok out) :
    ∃ tr, trace_all_headings fuel state ia = .ok tr ∧
      renderEvs fmt state (dictLookup (fun lb => lb.name) state.labels) tr
        = .ok out :=
  gen_all_trace_aux state.projects out h

theorem traceItemsList_ok_cons {ch : String → Option (List Item)} {fuel : Nat}
    {i : Item} {rest : List Item} {level : Nat} {tr : List (Item × Nat)}
    (h : traceItemsList ch fuel (i :: rest) level = .ok tr) :
    ∃ cs sub tail, ch i.id = some cs ∧
      trace_item_headings ch fuel cs (level + 1) = .ok sub ∧
      traceItemsList ch fuel rest level = .ok tail ∧
      tr = (i, level) :: sub ++ tail := by
  rw [traceItemsList_cons] at h
  cases hk : ch i.id with
  | none =>
    rw [hk] at h
    exact Except.noConfusion h
  | some cs =>
    rw [hk] at h
    obtain ⟨sub, hsub, h2⟩ := bind_ok_inv h
    obtain ⟨tail, htail, h3⟩ := bind_ok_inv h2
    exact ⟨cs, sub, tail, rfl, hsub, htail, ((Except.ok.injEq _ _).mp h3).symm⟩

theorem trace_item_headings_ok_succ {ch : String → Option (List Item)}
    {fuel : Nat} {items : List Item} {level : Nat} {tr : List (Item × Nat)}
    (h : trace_item_headings ch fuel items level = .ok tr) :
    ∃ f, fuel = f + 1 ∧
      traceItemsList ch f (pySortByKey (fun i => i.child_order) items) level
        = .ok tr := by
  cases fuel with
  | zero => exact absurd h (by simp [trace_item_headings])
  | succ f => exact ⟨f, rfl, by rw [← trace_item_headings_succ]; exact h⟩

theorem traceItemsList_mem_top {ch : String → Option (List Item)} {fuel level : Nat} :
    ∀ {items : List Item} {tr : List (Item × Nat)},
      traceItemsList ch fuel items level = .ok tr →
      ∀ i, i ∈ items → (i, level) ∈ tr := by
  intro items
  induction items with
  | nil =>
    intro tr h i hi
    exact absurd hi (List.not_mem_nil i)
  | cons a rest ih =>
    intro tr h i hi
    obtain ⟨cs, sub, tail, hk, hsub, htail, rfl⟩ := traceItemsList_ok_cons h
    rcases List.mem_cons.mp hi with rfl | hi
    · exact List.mem_cons_self _ _
    · exact List.mem_cons_of_mem _ (List.mem_append_right _ (ih htail i hi))

theorem trace_item_headings_mem_top {ch : String → Option (List Item)}
    {fuel : Nat} {items : List Item} {level : Nat} {tr : List (Item × Nat)}
    (h : trace_item_headings ch fuel items level = .ok tr) :
    ∀ i, i ∈ items → (i, level) ∈ tr := by
  obtain ⟨f, rfl, hq⟩ := trace_item_headings_ok_succ h
  intro i hi
  exact traceItemsList_mem_top hq i (mem_pySortByKey.mpr hi)

theorem traceItemsList_level_lb {ch : String → Option (List Item)} :
    ∀ fuel, ∀ {items : List Item} {level : Nat} {tr : List (Item × Nat)},
      traceItemsList ch fuel items level = .ok tr →
      ∀ e ∈ tr, level ≤ e.2 := by
  intro fuel
  induction fuel with
  | zero =>
    intro items level tr h e he
    match items with
    | [] =>
      obtain rfl : [] = tr := (Except.ok.injEq _ _).mp h
      exact absurd he (List.not_mem_nil e)
    | i :: rest =>
      obtain ⟨cs, sub, tail, hk, hsub, htail, rfl⟩ := traceItemsList_ok_cons h
      exact absurd hsub (by simp [trace_item_headings])
  | succ f ih =>
    intro items
    induction items with
    | nil =>
      intro level tr h e he
      obtain rfl : [] = tr := (Except.ok.injEq _ _).mp h
      exact absurd he (List.not_mem_nil e)
    | cons a rest ihl =>
      intro level tr h e he
      obtain ⟨cs, sub, tail, hk, hsub, htail, rfl⟩ := traceItemsList_ok_cons h
      obtain ⟨f2, hf2, hq⟩ := trace_item_headings_ok_succ hsub
      obtain rfl : f2 = f := by omega
      rcases List.mem_cons.mp he with rfl | he
      · exact le_refl _
      rcases List.mem_append.mp he with he | he
      · exact le_trans (Nat.le_succ level) (ih hq e he)
      · exact ihl htail e he

theorem trace_item_headings_level_lb {ch : String → Option (List Item)}
    {fuel : Nat} {items : List Item} {level : Nat} {tr : List (Item × Nat)}
    (h : trace_item_headings ch fuel items level = .ok tr) :
    ∀ e ∈ tr, level ≤ e.2 := by
  obtain ⟨f, rfl, hq⟩ := trace_item_headings_ok_succ h
  exact traceItemsList_level_lb f hq

theorem traceItemsList_src {ch : String → Option (List Item)} :
    ∀ fuel, ∀ {items : List Item} {level : Nat} {tr : List (Item × Nat)},
      traceItemsList ch fuel items level = .ok tr →
      ∀ e ∈ tr, (e.1 ∈ items ∧ e.2 = level) ∨
        ∃ p pl cs, (p, pl) ∈ tr ∧ ch p.id = some cs ∧ e.1 ∈ cs ∧ e.2 = pl + 1 := by
  intro fuel
  induction fuel with
  | zero =>
    intro items level tr h e he
    match items with
    | [] =>
      obtain rfl : [] = tr := (Except.ok.injEq _ _).mp h
      exact absurd he (List.not_mem_nil e)
    | i :: rest =>
      obtain ⟨cs, sub, tail, hk, hsub, htail, rfl⟩ := traceItemsList_ok_cons h
      exact absurd hsub (by simp [trace_item_headings])
  | succ f ih =>
    intro items
    induction items with
    | nil =>
      intro level tr h e he
      obtain rfl : [] = tr := (Except.ok.injEq _ _).mp h
      exact absurd he (List.not_mem_nil e)
    | cons a rest ihl =>
      intro level tr h e he
      obtain ⟨cs, sub, tail, hk, hsub, htail, rfl⟩ := traceItemsList_ok_cons h
      obtain ⟨f2, hf2, hq⟩ := trace_item_headings_ok_succ hsub
      obtain rfl : f2 = f := by omega
      rcases List.mem_cons.mp he with rfl | he
      · exact Or.inl ⟨List.mem_cons_self _ _, rfl⟩
      rcases List.mem_append.mp he with he | he
      · rcases ih hq e he with ⟨hm, hl⟩ | ⟨p, pl, cs2, hp, hk2, hm, hl⟩
        · exact Or.inr ⟨a, level, cs, List.mem_cons_self _ _, hk,
            mem_pySortByKey.mp hm, hl⟩
        · exact Or.inr ⟨p, pl, cs2,
            List.mem_cons_of_mem _ (List.mem_append_left _ hp), hk2, hm, hl⟩
      · rcases ihl htail e he with ⟨hm, hl⟩ | ⟨p, pl, cs2, hp, hk2, hm, hl⟩
        · exact Or.inl ⟨List.mem_cons_of_mem _ hm, hl⟩
        · exact Or.inr ⟨p, pl, cs2,
            List.mem_cons_of_mem _ (List.mem_append_right _ hp), hk2, hm, hl⟩

theorem trace_item_headings_src {ch : String → Option (List Item)}
    {fuel : Nat} {items : List Item} {level : Nat} {tr : List (Item × Nat)}
    (h : trace_item_headings ch fuel items level = .ok tr) :
    ∀ e ∈ tr, (e.1 ∈ items ∧ e.2 = level) ∨
      ∃ p pl cs, (p, pl) ∈ tr ∧ ch p.id = some cs ∧ e.1 ∈ cs ∧ e.2 = pl + 1 := by
  obtain ⟨f, rfl, hq⟩ := trace_item_headings_ok_succ h
  intro e he
  rcases traceItemsList_src f hq e he with ⟨hm, hl⟩ | hr
  · exact Or.inl ⟨mem_pySortByKey.mp hm, hl⟩
  · exact Or.inr hr

theorem traceItemsList_child {ch : String → Option (List Item)} :
    ∀ fuel, ∀ {items : List Item} {level : Nat} {tr : List (Item × Nat)},
      traceItemsList ch fuel items level = .ok tr →
      ∀ p pl cs c, (p, pl) ∈ tr → ch p.id = some cs → c ∈ cs →
        (c, pl + 1) ∈ tr := by
  intro fuel
  induction fuel with
  | zero =>
    intro items level tr h p pl cs c hp hk hc
    match items with
    | [] =>
      obtain rfl : [] = tr := (Except.ok.injEq _ _).mp h
      exact absurd hp (List.not_mem_nil _)
    | i :: rest =>
      obtain ⟨cs2, sub, tail, hk2, hsub, htail, rfl⟩ := traceItemsList_ok_cons h
      exact absurd hsub (by simp [trace_item_headings])
  | succ f ih =>
    intro items
    induction items with
    | nil =>
      intro level tr h p pl cs c hp hk hc
      obtain rfl : [] = tr := (Except.ok.injEq _ _).mp h
      exact absurd hp (List.not_mem_nil _)
    | cons a rest ihl =>
      intro level tr h p pl cs c hp hk hc
      obtain ⟨cs2, sub, tail, hk2, hsub, htail, rfl⟩ := traceItemsList_ok_cons h
      rcases List.mem_cons.mp hp with heq | hp
      · obtain ⟨rfl, rfl⟩ := Prod.mk.injEq .. ▸ heq
        obtain rfl : cs2 = cs := Option.some.injEq .. ▸ (hk2.symm.trans hk)
        exact List.mem_cons_of_mem _
          (List.mem_append_left _ (trace_item_headings_mem_top hsub c hc))
      rcases List.mem_append.mp hp with hp | hp
      · obtain ⟨f2, hf2, hq⟩ := trace_item_headings_ok_succ hsub
        obtain rfl : f2 = f := by omega
        exact List.mem_cons_of_mem _
          (List.mem_append_left _ (ih hq p pl cs c hp hk hc))
      · exact List.mem_cons_of_mem _
          (List.mem_append_right _ (ihl htail p pl cs c hp hk hc))

theorem trace_item_headings_child {ch : String → Option (List Item)}
    {fuel : Nat} {items : List Item} {level : Nat} {tr : List (Item × Nat)}
    (h : trace_item_headings ch fuel items level = .ok tr) :
    ∀ p pl cs c, (p, pl) ∈ tr → ch p.id = some cs → c ∈ cs →
      (c, pl + 1) ∈ tr := by
  obtain ⟨f, rfl, hq⟩ := trace_item_headings_ok_succ h
  exact traceItemsList_child f hq

theorem traceItemsList_top_slice {ch : String → Option (List Item)}
    {fuel : Nat} :
    ∀ {items : List Item} {level : Nat} {tr : List (Item × Nat)},
      traceItemsList ch fuel items level = .ok tr →
      tr.filter (fun e => e.2 = level) = items.map (fun i => (i, level)) := by
  intro items
  induction items with
  | nil =>
    intro level tr h
    obtain rfl : [] = tr := (Except.ok.injEq _ _).mp h
    rfl
  | cons a rest ih =>
    intro level tr h
    obtain ⟨cs, sub, tail, hk, hsub, htail, rfl⟩ := traceItemsList_ok_cons h
    have hlb := trace_item_headings_level_lb hsub
    have hsubnil : sub.filter (fun e => e.2 = level) = [] := by
      rw [List.filter_eq_nil_iff]
      intro e he
      have := hlb e he
      simp only [decide_eq_true_eq]
      omega
    simp only [List.filter_cons, List.filter_append, hsubnil, ih htail,
      List.map_cons, decide_eq_true_eq]
    simp

theorem trace_item_headings_top_slice {ch : String → Option (List Item)}
    {fuel : Nat} {items : List Item} {level : Nat} {tr : List (Item × Nat)}
    (h : trace_item_headings ch fuel items level = .ok tr) :
    tr.filter (fun e => e.2 = level) =
      (pySortByKey (fun i => i.child_order) items).map (fun i => (i, level)) := by
  obtain ⟨f, rfl, hq⟩ := trace_item_headings_ok_succ h
  exact traceItemsList_top_slice hq

theorem traceItemsList_dfs {ch : String → Option (List Item)} :
    ∀ fuel, ∀ {items : List Item} {level : Nat} {tr : List (Item × Nat)},
      traceItemsList ch fuel items level = .ok tr →
      ∀ i l, (i, l) ∈ tr → ∃ cs f sub pre post,
        ch i.id = some cs ∧
        trace_item_headings ch f cs (l + 1) = .ok sub ∧
        tr = pre ++ (i, l) :: sub ++ post := by
  intro fuel
  induction fuel with
  | zero =>
    intro items level tr h i l hi
    match items with
    | [] =>
      obtain rfl : [] = tr := (Except.ok.injEq _ _).mp h
      exact absurd hi (List.not_mem_nil _)
    | a :: rest =>
      obtain ⟨cs, sub, tail, hk, hsub, htail, rfl⟩ := traceItemsList_ok_cons h
      exact absurd hsub (by simp [trace_item_headings])
  | succ f ih =>
    intro items
    induction items with
    | nil =>
      intro level tr h i l hi
      obtain rfl : [] = tr := (Except.ok.injEq _ _).mp h
      exact absurd hi (List.not_mem_nil _)
    | cons a rest ihl =>
      intro level tr h i l hi
      obtain ⟨cs, sub, tail, hk, hsub, htail, rfl⟩ := traceItemsList_ok_cons h
      rcases List.mem_cons.mp hi with heq | hi
      · obtain ⟨rfl, rfl⟩ := Prod.mk.injEq .. ▸ heq
        exact ⟨cs, f + 1, sub, [], tail, hk, hsub, rfl⟩
      rcases List.mem_append.mp hi with hi | hi
      · obtain ⟨f2, hf2, hq⟩ := trace_item_headings_ok_succ hsub
        obtain rfl : f2 = f := by omega
        obtain ⟨cs2, f3, sub2, pre, post, hk2, hsub2, hdec⟩ := ih hq i l hi
        refine ⟨cs2, f3, sub2, (a, level) :: pre, post ++ tail, hk2, hsub2, ?_⟩
        rw [hdec]
        simp [List.cons_append, List.append_assoc]
      · obtain ⟨cs2, f3, sub2, pre, post, hk2, hsub2, hdec⟩ := ihl htail i l hi
        refine ⟨cs2, f3, sub2, (a, level) :: sub ++ pre, post, hk2, hsub2, ?_⟩
        rw [hdec]
        simp [List.cons_append, List.append_assoc]

theorem trace_item_headings_dfs {ch : String → Option (List Item)}
    {fuel : Nat} {items : List Item} {level : Nat} {tr : List (Item × Nat)}
    (h : trace_item_headings ch fuel items level = .ok tr) :
    ∀ i l, (i, l) ∈ tr → ∃ cs f sub pre post,
      ch i.id = some cs ∧
      trace_item_headings ch f cs (l + 1) = .ok sub ∧
      tr = pre ++ (i, l) :: sub ++ post := by
  obtain ⟨f, rfl, hq⟩ := trace_item_headings_ok_succ h
  exact traceItemsList_dfs f hq

theorem item_children_dict_mem {pitems : List Item} {pid : String}
    {cs : List Item} {x : Item}
    (h : item_children_dict pitems pid = some cs) (hx : x ∈ cs) :
    x ∈ pitems ∧ x.parent_id = some pid ∧ pid ≠ "" := by
  rw [item_children_dict] at h
  by_cases hc : (pitems.map (fun i => i.id)).contains pid
  · rw [if_pos hc] at h
    obtain rfl : _ = cs := Option.some.injEq .. ▸ h
    by_cases hpid : pid = ""
    · rw [if_pos hpid] at hx
      exact absurd hx (List.not_mem_nil x)
    · rw [if_neg hpid] at hx
      obtain ⟨hm, hp⟩ := List.mem_filter.mp hx
      exact ⟨hm, by simpa using hp, hpid⟩
  · rw [if_neg hc] at h
    exact Option.noConfusion h

theorem item_children_dict_key {pitems : List Item} {p : Item} (hp : p ∈ pitems) :
    item_children_dict pitems p.id =
      some (if p.id = "" then []
        else pitems.filter (fun i => i.parent_id = some p.id)) := by
  rw [item_children_dict, if_pos]
  simp only [List.contains_eq_any_beq, List.any_eq_true, List.mem_map]
  exact ⟨p.id, ⟨p, hp, rfl⟩, by simp⟩

theorem item_children_dict_bucket {pitems : List Item} {p c : Item}
    (hp : p ∈ pitems) (hne : p.id ≠ "") (hc : c ∈ pitems)
    (hpar : c.parent_id = some p.id) :
    ∃ cs, item_children_dict pitems p.id = some cs ∧ c ∈ cs := by
  refine ⟨_, item_children_dict_key hp, ?_⟩
  rw [if_neg hne]
  exact List.mem_filter.mpr ⟨hc, by simp [hpar]⟩

theorem filterMap_none_eq_nil {α β : Type _} {l : List α} :
    l.filterMap (fun _ => (none : Option β)) = [] := by
  induction l with
  | nil => rfl
  | cons a t ih => simp [List.filterMap_cons, ih]

theorem trace_section_blocks_cons_inv {pitems : List Item} {ia : Bool}
    {fuel plvl : Nat} {sec : Section} {rest : List Section}
    {trS : List (Section ⊕ (Item × Nat))}
    (h : trace_section_blocks pitems ia fuel plvl (sec :: rest) = .ok trS) :
    ((!ia && sec.is_archived) = true ∧
      trace_section_blocks pitems ia fuel plvl rest = .ok trS) ∨
    ((!ia && sec.is_archived) = false ∧
      ∃ sub tail,
        trace_item_headings (item_children_dict pitems) fuel
          ((pitems.filter (fun i => i.section_id = some sec.id)).filter
            (fun i => i.parent_id = none)) (plvl + 2) = .ok sub ∧
        trace_section_blocks pitems ia fuel plvl rest = .ok tail ∧
        trS = Sum.inl sec :: sub.map Sum.inr ++ tail) := by
  rw [trace_section_blocks] at h
  by_cases hskip : (!ia && sec.is_archived) = true
  · rw [if_pos hskip] at h
    exact Or.inl ⟨hskip, h⟩
  · rw [if_neg hskip] at h
    obtain ⟨sub, hsub, h2⟩ := bind_ok_inv h
    obtain ⟨tail, htail, h3⟩ := bind_ok_inv h2
    exact Or.inr ⟨Bool.eq_false_iff.mpr hskip, sub, tail, hsub, htail,
      ((Except.ok.injEq _ _).mp h3).symm⟩

theorem trace_blocks_sections {pitems : List Item} {ia : Bool} {fuel plvl : Nat} :
    ∀ {secs : List Section} {trS : List (Section ⊕ (Item × Nat))},
      trace_section_blocks pitems ia fuel plvl secs = .ok trS →
      trS.filterMap (fun e => match e with
        | Sum.inl s => some s
        | Sum.inr _ => none)
        = secs.filter (fun s => ia || !s.is_archived) := by
  intro secs
  induction secs with
  | nil =>
    intro trS h
    obtain rfl : [] = trS := (Except.ok.injEq _ _).mp h
    rfl
  | cons sec rest ih =>
    intro trS h
    rcases trace_section_blocks_cons_inv h with ⟨hskip, htail⟩ |
      ⟨hskip, sub, tail, hsub, htail, rfl⟩
    · have hkeep : (ia || !sec.is_archived) = false := by
        revert hskip; cases ia <;> cases sec.is_archived <;> simp
      simp [List.filter_cons, hkeep, ih htail]
    · have hkeep : (ia || !sec.is_archived) = true := by
        revert hskip; cases ia <;> cases sec.is_archived <;> simp
      simp [List.filter_cons, hkeep, List.filterMap_cons, List.filterMap_append,
        List.filterMap_map, ih htail]

theorem trace_blocks_sec_top {pitems : List Item} {ia : Bool} {fuel plvl : Nat} :
    ∀ {secs : List Section} {trS : List (Section ⊕ (Item × Nat))},
      trace_section_blocks pitems ia fuel plvl secs = .ok trS →
      ∀ sec, Sum.inl sec ∈ trS →
        ∀ i, i ∈ pitems → i.section_id = some sec.id → i.parent_id = none →
          Sum.inr (i, plvl + 2) ∈ trS := by
  intro secs
  induction secs with
  | nil =>
    intro trS h sec hsec i hi hsid hpar
    obtain rfl : [] = trS := (Except.ok.injEq _ _).mp h
    exact absurd hsec (List.not_mem_nil _)
  | cons sec0 rest ih =>
    intro trS h sec hsec i hi hsid hpar
    rcases trace_section_blocks_cons_inv h with ⟨hskip, htail⟩ |
      ⟨hskip, sub, tail, hsub, htail, rfl⟩
    · exact ih htail sec hsec i hi hsid hpar
    · rcases List.mem_cons.mp hsec with heq | hsec
      · obtain rfl : sec = sec0 := Sum.inl.inj heq
        have hmem : i ∈ (pitems.filter (fun j => j.section_id = some sec.id)).filter
            (fun j => j.parent_id = none) :=
          List.mem_filter.mpr ⟨List.mem_filter.mpr ⟨hi, by simp [hsid]⟩, by simp [hpar]⟩
        exact List.mem_cons_of_mem _ (List.mem_append_left _
          (List.mem_map_of_mem _ (trace_item_headings_mem_top hsub i hmem)))
      rcases List.mem_append.mp hsec with hsec | hsec
      · obtain ⟨x, _, hx⟩ := List.mem_map.mp hsec
        exact absurd hx (by simp)
      · exact List.mem_cons_of_mem _ (List.mem_append_right _
          (ih htail sec hsec i hi hsid hpar))

theorem trace_blocks_child {pitems : List Item} {ia : Bool} {fuel plvl : Nat} :
    ∀ {secs : List Section} {trS : List (Section ⊕ (Item × Nat))},
      trace_section_blocks pitems ia fuel plvl secs = .ok trS →
      ∀ p pl cs c, Sum.inr (p, pl) ∈ trS →
        item_children_dict pitems p.id = some cs → c ∈ cs →
        Sum.inr (c, pl + 1) ∈ trS := by
  intro secs
  induction secs with
  | nil =>
    intro trS h p pl cs c hp hk hc
    obtain rfl : [] = trS := (Except.ok.injEq _ _).mp h
    exact absurd hp (List.not_mem_nil _)
  | cons sec0 rest ih =>
    intro trS h p pl cs c hp hk hc
    rcases trace_section_blocks_cons_inv h with ⟨hskip, htail⟩ |
      ⟨hskip, sub, tail, hsub, htail, rfl⟩
    · exact ih htail p pl cs c hp hk hc
    · rcases List.mem_cons.mp hp with heq | hp
      · exact absurd heq (by simp)
      rcases List.mem_append.mp hp with hp | hp
      · obtain ⟨x, hx, hxe⟩ := List.mem_map.mp hp
        obtain rfl : x = (p, pl) := by simpa using hxe
        exact List.mem_cons_of_mem _ (List.mem_append_left _
          (List.mem_map_of_mem _ (trace_item_headings_child hsub p pl cs c hx hk hc)))
      · exact List.mem_cons_of_mem _ (List.mem_append_right _
          (ih htail p pl cs c hp hk hc))

theorem trace_blocks_src {pitems : List Item} {ia : Bool} {fuel plvl : Nat} :
    ∀ {secs : List Section} {trS : List (Section ⊕ (Item × Nat))},
      trace_section_blocks pitems ia fuel plvl secs = .ok trS →
      ∀ e : Item × Nat, Sum.inr e ∈ trS →
        (∃ sec, Sum.inl sec ∈ trS ∧ e.1 ∈ pitems ∧
          e.1.section_id = some sec.id ∧ e.1.parent_id = none ∧ e.2 = plvl + 2) ∨
        (∃ p pl cs, Sum.inr (p, pl) ∈ trS ∧
          item_children_dict pitems p.id = some cs ∧ e.1 ∈ cs ∧ e.2 = pl + 1) := by
  intro secs
  induction secs with
  | nil =>
    intro trS h e he
    obtain rfl : [] = trS := (Except.ok.injEq _ _).mp h
    exact absurd he (List.not_mem_nil _)
  | cons sec0 rest ih =>
    intro trS h e he
    rcases trace_section_blocks_cons_inv h with ⟨hskip, htail⟩ |
      ⟨hskip, sub, tail, hsub, htail, rfl⟩
    · exact ih htail e he
    · rcases List.mem_cons.mp he with heq | he
      · exact absurd heq (by simp)
      rcases List.mem_append.mp he with he | he
      · obtain ⟨x, hx, hxe⟩ := List.mem_map.mp he
        have hx2 : e ∈ sub := by
          obtain rfl : x = e := by simpa using hxe
          exact hx
        rcases trace_item_headings_src hsub e hx2 with ⟨hm, hl⟩ |
          ⟨p, pl, cs, hp, hk, hm, hl⟩
        · obtain ⟨hm2, hpar⟩ := List.mem_filter.mp hm
          obtain ⟨hm3, hsid⟩ := List.mem_filter.mp hm2
          exact Or.inl ⟨sec0, List.mem_cons_self _ _, hm3,
            by simpa using hsid, by simpa using hpar, hl⟩
        · exact Or.inr ⟨p, pl, cs, List.mem_cons_of_mem _
            (List.mem_append_left _ (List.mem_map_of_mem _ hp)), hk, hm, hl⟩
      · rcases ih htail e he with ⟨sec, hsec, hm, hsid, hpar, hl⟩ |
          ⟨p, pl, cs, hp, hk, hm, hl⟩
        · exact Or.inl ⟨sec, List.mem_cons_of_mem _ (List.mem_append_right _ hsec),
            hm, hsid, hpar, hl⟩
        · exact Or.inr ⟨p, pl, cs,
            List.mem_cons_of_mem _ (List.mem_append_right _ hp), hk, hm, hl⟩

theorem trace_blocks_dfs {pitems : List Item} {ia : Bool} {fuel plvl : Nat} :
    ∀ {secs : List Section} {trS : List (Section ⊕ (Item × Nat))},
      trace_section_blocks pitems ia fuel plvl secs = .ok trS →
      ∀ i l, Sum.inr (i, l) ∈ trS → ∃ cs f sub pre post,
        item_children_dict pitems i.id = some cs ∧
        trace_item_headings (item_children_dict pitems) f cs (l + 1) = .ok sub ∧
        trS = pre ++ Sum.inr (i, l) :: sub.map Sum.inr ++ post := by
  intro secs
  induction secs with
  | nil =>
    intro trS h i l hi
    obtain rfl : [] = trS := (Except.ok.injEq _ _).mp h
    exact absurd hi (List.not_mem_nil _)
  | cons sec0 rest ih =>
    intro trS h i l hi
    rcases trace_section_blocks_cons_inv h with ⟨hskip, htail⟩ |
      ⟨hskip, sub, tail, hsub, htail, rfl⟩
    · exact ih htail i l hi
    · rcases List.mem_cons.mp hi with heq | hi
      · exact absurd heq (by simp)
      rcases List.mem_append.mp hi with hi | hi
      · obtain ⟨x, hx, hxe⟩ := List.mem_map.mp hi
        obtain rfl : x = (i, l) := by simpa using hxe
        obtain ⟨cs, f, sub2, pre, post, hk, hsub2, hdec⟩ :=
          trace_item_headings_dfs hsub i l hx
        refine ⟨cs, f, sub2, Sum.inl sec0 :: pre.map Sum.inr,
          post.map Sum.inr ++ tail, hk, hsub2, ?_⟩
        rw [hdec]
        simp [List.map_append, List.map_cons, List.cons_append, List.append_assoc]
      · obtain ⟨cs, f, sub2, pre, post, hk, hsub2, hdec⟩ := ih htail i l hi
        refine ⟨cs, f, sub2, Sum.inl sec0 :: sub.map Sum.inr ++ pre, post,
          hk, hsub2, ?_⟩
        rw [hdec]
        simp [List.cons_append, List.append_assoc]

theorem trace_sub_parts {fuel : Nat} {pitems : List Item} {psecs : List Section}
    {plvl : Nat} {ia : Bool} {tr : List (Section ⊕ (Item × Nat))}
    (h : trace_project_subheadings fuel pitems psecs plvl ia = .ok tr) :
    ∃ tr0 trS,
      trace_item_headings (item_children_dict pitems) fuel
        ((pitems.filter (fun i => i.section_id = none)).filter
          (fun i => i.parent_id = none)) (plvl + 1) = .ok tr0 ∧
      trace_section_blocks pitems ia fuel plvl
        (pySortByKey (fun s => s.section_order) psecs) = .ok trS ∧
      tr = tr0.map Sum.inr ++ trS := by
  rw [trace_project_subheadings] at h
  cases hbs : bad_section_item pitems
      ((pySortByKey (fun s => s.section_order) psecs).map (fun s => s.id)) with
  | some bad =>
    simp only [hbs] at h
    exact Except.noConfusion h
  | none =>
    simp only [hbs] at h
    cases hbp : bad_parent_item pitems with
    | some bad =>
      simp only [hbp] at h
      exact Except.noConfusion h
    | none =>
      simp only [hbp] at h
      obtain ⟨tr0, h0, h2⟩ := bind_ok_inv h
      obtain ⟨trS, hS, h3⟩ := bind_ok_inv h2
      exact ⟨tr0, trS, h0, hS, ((Except.ok.injEq _ _).mp h3).symm⟩

theorem trace_sub_carrier {fuel : Nat} {pitems : List Item}
    {psecs : List Section} {plvl : Nat} {ia : Bool}
    {tr : List (Section ⊕ (Item × Nat))}
    (h : trace_project_subheadings fuel pitems psecs plvl ia = .ok tr) :
    ∀ e : Item × Nat, Sum.inr e ∈ tr → e.1 ∈ pitems := by
  obtain ⟨tr0, trS, h0, hS, rfl⟩ := trace_sub_parts h
  intro e he
  rcases List.mem_append.mp he with he | he
  · obtain ⟨x, hx, hxe⟩ := List.mem_map.mp he
    have hx2 : e ∈ tr0 := by
      obtain rfl : x = e := by simpa using hxe
      exact hx
    rcases trace_item_headings_src h0 e hx2 with ⟨hm, _⟩ |
      ⟨p, pl, cs, _, hk, hm, _⟩
    · exact (List.mem_filter.mp (List.mem_filter.mp hm).1).1
    · exact (item_children_dict_mem hk hm).1
  · rcases trace_blocks_src hS e he with ⟨_, _, hm, _, _, _⟩ |
      ⟨p, pl, cs, _, hk, hm, _⟩
    · exact hm
    · exact (item_children_dict_mem hk hm).1

/-- C2: heading levels of the generated output.  Every successful
`generate_project_subheadings` run has a matching trace run that renders
back to the same headings, in which (i) a parentless item outside any
section is emitted at project level + 1, (ii) a parentless item of an
emitted section is emitted at project level + 2, (iii) the children of
every emitted item occurrence are emitted exactly one level deeper than
it, and (iv) conversely every emitted item occurrence is of one of those
three forms, so nesting increases the level by exactly 1 per step. -/
theorem claim_C2 {fmt : TZFormatter} {state : TodoistState} {fuel : Nat}
    {pitems : List Item} {psecs : List Section} {plvl : Nat}
    {ld : String → Option Label} {ia : Bool} {out : List String}
    (h : generate_project_subheadings fmt state fuel pitems psecs plvl ld ia
      = .ok out) :
    ∃ tr, trace_project_subheadings fuel pitems psecs plvl ia = .ok tr ∧
      renderSubEvs fmt state ld plvl tr = .ok out ∧
      (∀ i, i ∈ pitems → i.section_id = none → i.parent_id = none →
        Sum.inr (i, plvl + 1) ∈ tr) ∧
      (∀ sec i, Sum.inl sec ∈ tr → i ∈ pitems → i.section_id = some sec.id →
        i.parent_id = none → Sum.inr (i, plvl + 2) ∈ tr) ∧
      (∀ p l c, Sum.inr (p, l) ∈ tr → c ∈ pitems → c.parent_id = some p.id →
        p.id ≠ "" → Sum.inr (c, l + 1) ∈ tr) ∧
      (∀ i l, Sum.inr (i, l) ∈ tr →
        (i.section_id = none ∧ i.parent_id = none ∧ l = plvl + 1) ∨
        (∃ sec, Sum.inl sec ∈ tr ∧ i.section_id = some sec.id ∧
          i.parent_id = none ∧ l = plvl + 2) ∨
        (∃ p pl, Sum.inr (p, pl) ∈ tr ∧ i.parent_id = some p.id ∧ l = pl + 1)) := by
  obtain ⟨tr, htr, hr⟩ := gen_subheadings_trace h
  obtain ⟨tr0, trS, h0, hS, heq⟩ := trace_sub_parts htr
  subst heq
  refine ⟨_, htr, hr, ?_, ?_, ?_, ?_⟩
  · intro i hi hsid hpar
    have hm : i ∈ (pitems.filter (fun j => j.section_id = none)).filter
        (fun j => j.parent_id = none) :=
      List.mem_filter.mpr ⟨List.mem_filter.mpr ⟨hi, by simp [hsid]⟩, by simp [hpar]⟩
    exact List.mem_append_left _
      (List.mem_map_of_mem _ (trace_item_headings_mem_top h0 i hm))
  · intro sec i hsec hi hsid hpar
    rcases List.mem_append.mp hsec with hsec | hsec
    · obtain ⟨x, _, hx⟩ := List.mem_map.mp hsec
      exact absurd hx (by simp)
    · exact List.mem_append_right _ (trace_blocks_sec_top hS sec hsec i hi hsid hpar)
  · intro p l c hp hc hpar hne
    have hpm : p ∈ pitems := trace_sub_carrier htr (p, l) hp
    obtain ⟨cs, hk, hcm⟩ := item_children_dict_bucket hpm hne hc hpar
    rcases List.mem_append.mp hp with hp | hp
    · obtain ⟨x, hx, hxe⟩ := List.mem_map.mp hp
      obtain rfl : x = (p, l) := by simpa using hxe
      exact List.mem_append_left _ (List.mem_map_of_mem _
        (trace_item_headings_child h0 p l cs c hx hk hcm))
    · exact List.mem_append_right _ (trace_blocks_child hS p l cs c hp hk hcm)
  · intro i l hi
    rcases List.mem_append.mp hi with hi | hi
    · obtain ⟨x, hx, hxe⟩ := List.mem_map.mp hi
      obtain rfl : x = (i, l) := by simpa using hxe
      rcases trace_item_headings_src h0 (i, l) hx with ⟨hm, hl⟩ |
        ⟨p, pl, cs, hp, hk, hm, hl⟩
      · obtain ⟨hm2, hpar⟩ := List.mem_filter.mp hm
        obtain ⟨_, hsid⟩ := List.mem_filter.mp hm2
        exact Or.inl ⟨by simpa using hsid, by simpa using hpar, hl⟩
      · obtain ⟨_, hpar, _⟩ := item_children_dict_mem hk hm
        exact Or.inr (Or.inr ⟨p, pl,
          List.mem_append_left _ (List.mem_map_of_mem _ hp), hpar, hl⟩)
    · rcases trace_blocks_src hS (i, l) hi with ⟨sec, hsec, _, hsid, hpar, hl⟩ |
        ⟨p, pl, cs, hp, hk, hm, hl⟩
      · exact Or.inr (Or.inl ⟨sec, List.mem_append_right _ hsec, hsid, hpar, hl⟩)
      · obtain ⟨_, hpar, _⟩ := item_children_dict_mem hk hm
        exact Or.inr (Or.inr ⟨p, pl, List.mem_append_right _ hp, hpar, hl⟩)

set_option maxRecDepth 4000 in
/-- Witness for C2: on a concrete record set with a parentless unsectioned
item, its child, and a parentless sectioned item, the claim places them at
levels 2, 3 and 3 over project level 1. -/
theorem claim_C2_witness :
    generate_project_subheadings fmtW stC2w 10 itemsC2w secsC2w 1 ldW false
      = .ok outC2w ∧
    ∃ tr, trace_project_subheadings 10 itemsC2w secsC2w 1 false = .ok tr ∧
      renderSubEvs fmtW stC2w ldW 1 tr = .ok outC2w ∧
      Sum.inr (iC2b, 2) ∈ tr ∧ Sum.inr (iC2c, 3) ∈ tr ∧
      Sum.inr (iC2d, 3) ∈ tr := by
  have h : generate_project_subheadings fmtW stC2w 10 itemsC2w secsC2w 1 ldW false
      = .ok outC2w := by decide
  obtain ⟨tr, htr, hr, ha, hb, hc, hd⟩ := claim_C2 h
  have htr2 : trace_project_subheadings 10 itemsC2w secsC2w 1 false
      = .ok trC2w := rfl
  obtain rfl : tr = trC2w := (Except.ok.injEq _ _).mp (htr.symm.trans htr2)
  have hbmem := ha iC2b (by decide) rfl rfl
  have hamem := ha iC2a (by decide) rfl rfl
  have hcmem := hc iC2a 2 iC2c hamem (by decide) rfl (by decide)
  have hsec : Sum.inl secC2w ∈ trC2w := by simp [trC2w]
  have hdmem := hb secC2w iC2d hsec (by decide) rfl rfl
  exact ⟨h, trC2w, htr2, hr, hbmem, hcmem, hdmem⟩

theorem filter_swap {α : Type _} (p q : α → Bool) (l : List α) :
    (l.filter p).filter q = (l.filter q).filter p := by
  induction l with
  | nil => rfl
  | cons a t ih =>
    by_cases hp : p a <;> by_cases hq : q a <;>
      simp [List.filter_cons, hp, hq, ih]

/-- C4: ordering of the generated output.  Every successful
`generate_project_subheadings` run has a matching trace run that renders
back to the same headings, in which the no-section item group comes first
(its top-level slice in sorted child order), the emitted sections are the
kept sections in non-decreasing `section_order` with ties kept in input
order, and every emitted item occurrence is immediately followed by the
depth-first block of its children, whose own top-level slice is in sorted
child order with ties kept in bucket (input) order. -/
theorem claim_C4 {fmt : TZFormatter} {state : TodoistState} {fuel : Nat}
    {pitems : List Item} {psecs : List Section} {plvl : Nat}
    {ld : String → Option Label} {ia : Bool} {out : List String}
    (h : generate_project_subheadings fmt state fuel pitems psecs plvl ld ia
      = .ok out) :
    ∃ tr, trace_project_subheadings fuel pitems psecs plvl ia = .ok tr ∧
      renderSubEvs fmt state ld plvl tr = .ok out ∧
      (∃ tr0 trS,
        tr = tr0.map Sum.inr ++ trS ∧
        trace_item_headings (item_children_dict pitems) fuel
          ((pitems.filter (fun i => i.section_id = none)).filter
            (fun i => i.parent_id = none)) (plvl + 1) = .ok tr0 ∧
        tr0.filter (fun e => e.2 = plvl + 1)
          = (pySortByKey (fun i => i.child_order)
              ((pitems.filter (fun i => i.section_id = none)).filter
                (fun i => i.parent_id = none))).map (fun i => (i, plvl + 1)) ∧
        trace_section_blocks pitems ia fuel plvl
          (pySortByKey (fun s => s.section_order) psecs) = .ok trS) ∧
      tr.filterMap (fun e => match e with
        | Sum.inl s => some s
        | Sum.inr _ => none)
        = (pySortByKey (fun s => s.section_order) psecs).filter
            (fun s => ia || !s.is_archived) ∧
      (tr.filterMap (fun e => match e with
        | Sum.inl s => some s
        | Sum.inr _ => none)).Pairwise
          (fun a b => a.section_order ≤ b.section_order) ∧
      (∀ k, (tr.filterMap (fun e => match e with
          | Sum.inl s => some s
          | Sum.inr _ => none)).filter (fun s => s.section_order = k)
        = (psecs.filter (fun s => ia || !s.is_archived)).filter
            (fun s => s.section_order = k)) ∧
      (∀ i l, Sum.inr (i, l) ∈ tr → ∃ cs f sub pre post,
        item_children_dict pitems i.id = some cs ∧
        trace_item_headings (item_children_dict pitems) f cs (l + 1) = .ok sub ∧
        tr = pre ++ Sum.inr (i, l) :: sub.map Sum.inr ++ post ∧
        sub.filter (fun e => e.2 = l + 1)
          = (pySortByKey (fun c => c.child_order) cs).map (fun c => (c, l + 1)) ∧
        (∀ k, (pySortByKey (fun c => c.child_order) cs).filter
            (fun c => c.child_order = k)
          = cs.filter (fun c => c.child_order = k))) := by
  obtain ⟨tr, htr, hr⟩ := gen_subheadings_trace h
  obtain ⟨tr0, trS, h0, hS, heq⟩ := trace_sub_parts htr
  subst heq
  have hnil : List.filterMap (fun e => match e with
      | Sum.inl s => some s
      | Sum.inr _ => (none : Option Section)) (tr0.map Sum.inr) = [] := by
    rw [List.filterMap_map]
    exact filterMap_none_eq_nil
  have hsecs : (tr0.map Sum.inr ++ trS).filterMap
      (fun e : Section ⊕ (Item × Nat) => match e with
        | Sum.inl s => some s
        | Sum.inr _ => (none : Option Section))
      = (pySortByKey (fun s => s.section_order) psecs).filter
          (fun s => ia || !s.is_archived) := by
    rw [List.filterMap_append, hnil, List.nil_append]
    exact trace_blocks_sections hS
  refine ⟨_, htr, hr,
    ⟨tr0, trS, rfl, h0, trace_item_headings_top_slice h0, hS⟩,
    hsecs, ?_, ?_, ?_⟩
  · rw [hsecs]
    exact (pySortByKey_sorted psecs).sublist (List.filter_sublist _)
  · intro k
    rw [hsecs, filter_swap]
    have hst := @pySortByKey_filter _ (fun s => s.section_order) psecs k
    rw [hst, filter_swap]
  · intro i l hi
    rcases List.mem_append.mp hi with hi | hi
    · obtain ⟨x, hx, hxe⟩ := List.mem_map.mp hi
      obtain rfl : x = (i, l) := by simpa using hxe
      obtain ⟨cs, f, sub, pre, post, hk, hsub, hdec⟩ :=
        trace_item_headings_dfs h0 i l hx
      refine ⟨cs, f, sub, pre.map Sum.inr, post.map Sum.inr ++ trS, hk, hsub, ?_,
        trace_item_headings_top_slice hsub,
        fun k => @pySortByKey_filter _ (fun c => c.child_order) cs k⟩
      rw [hdec]
      simp [List.map_append, List.map_cons, List.cons_append, List.append_assoc]
    · obtain ⟨cs, f, sub, pre, post, hk, hsub, hdec⟩ := trace_blocks_dfs hS i l hi
      refine ⟨cs, f, sub, tr0.map Sum.inr ++ pre, post, hk, hsub, ?_,
        trace_item_headings_top_slice hsub,
        fun k => @pySortByKey_filter _ (fun c => c.child_order) cs k⟩
      rw [hdec]
      simp [List.append_assoc]

set_option maxRecDepth 4000 in
/-- Witness for C4: on a concrete record set with tied child orders and
tied section orders, the no-section group comes first and both ties keep
the input order. -/
theorem claim_C4_witness :
    generate_project_subheadings fmtW stC2w 10 itemsC4w secsC4w 1 ldW false
      = .ok outC4w ∧
    ∃ tr, trace_project_subheadings 10 itemsC4w secsC4w 1 false = .ok tr ∧
      renderSubEvs fmtW stC2w ldW 1 tr = .ok outC4w ∧
      tr.filterMap (fun e : Section ⊕ (Item × Nat) => match e with
        | Sum.inl s => some s
        | Sum.inr _ => (none : Option Section)) = [secC4a, secC4b] ∧
      (tr.filterMap (fun e : Section ⊕ (Item × Nat) => match e with
        | Sum.inl s => some s
        | Sum.inr _ => (none : Option Section))).Pairwise
          (fun a b => a.section_order ≤ b.section_order) ∧
      (tr.filterMap (fun e : Section ⊕ (Item × Nat) => match e with
        | Sum.inl s => some s
        | Sum.inr _ => (none : Option Section))).filter
          (fun s => s.section_order = 1) = [secC4a, secC4b] := by
  have h : generate_project_subheadings fmtW stC2w 10 itemsC4w secsC4w 1 ldW false
      = .ok outC4w := by decide
  obtain ⟨tr, htr, hr, hdecomp, hsecs, hpair, hstab, hdfs⟩ := claim_C4 h
  have hsorted : (pySortByKey (fun s => s.section_order) secsC4w).filter
      (fun s => false || !s.is_archived) = [secC4a, secC4b] := by decide
  have hstab1 : (secsC4w.filter (fun s => false || !s.is_archived)).filter
      (fun s => s.section_order = (1 : Int)) = [secC4a, secC4b] := by decide
  exact ⟨h, tr, htr, hr, hsecs.trans hsorted, hpair, (hstab 1).trans hstab1⟩

theorem exceptFlatMap_mem_src {ε : Type _} {f : α → Except ε (List β)}
    {l : List α} {out : List β}
    (h : exceptFlatMap f l = .ok out) :
    ∀ e ∈ out, ∃ a, a ∈ l ∧ ∃ xs, f a = .ok xs ∧ e ∈ xs := by
  induction l generalizing out with
  | nil =>
    obtain rfl : [] = out := (Except.ok.injEq _ _).mp h
    intro e he
    exact absurd he (List.not_mem_nil e)
  | cons a as ih =>
    rw [exceptFlatMap] at h
    obtain ⟨xs, hfa, h2⟩ := bind_ok_inv h
    obtain ⟨ys, hys, h3⟩ := bind_ok_inv h2
    obtain rfl : _ = out := (Except.ok.injEq _ _).mp h3
    intro e he
    rcases List.mem_append.mp he with he | he
    · exact ⟨a, List.mem_cons_self _ _, xs, hfa, he⟩
    · obtain ⟨b, hb, xs2, hxs2, he2⟩ := ih hys e he
      exact ⟨b, List.mem_cons_of_mem _ hb, xs2, hxs2, he2⟩

theorem trace_project_block_ok {fuel : Nat} {state : TodoistState} {ia : Bool}
    {p : Project} {trP : List Ev}
    (h : trace_project_block fuel state ia p = .ok trP) :
    (trP = [] ∧ ia = false ∧ p.is_archived = true) ∨
    ((!ia && p.is_archived) = false ∧
      ∃ level sub,
        trace_project_subheadings fuel
          (state.items.filter (fun i => i.project_id = p.id))
          (state.sections.filter (fun s => s.project_id = p.id)) level ia
          = .ok sub ∧
        trP = Ev.proj p level :: sub.map (fun e => match e with
          | Sum.inl s => Ev.sec s (level + 1)
          | Sum.inr q => Ev.item q.1 q.2)) := by
  rw [trace_project_block] at h
  by_cases hskip : (!ia && p.is_archived) = true
  · rw [if_pos hskip] at h
    obtain rfl : [] = trP := (Except.ok.injEq _ _).mp h
    have hia : ia = false ∧ p.is_archived = true := by
      revert hskip; cases ia <;> cases p.is_archived <;> simp
    exact Or.inl ⟨rfl, hia.1, hia.2⟩
  · rw [if_neg hskip] at h
    obtain ⟨level, hlevel, h2⟩ := bind_ok_inv h
    obtain ⟨sub, hsub, h3⟩ := bind_ok_inv h2
    exact Or.inr ⟨Bool.eq_false_iff.mpr hskip, level, sub, hsub,
      ((Except.ok.injEq _ _).mp h3).symm⟩

theorem get_heading_lines_head {heading_level : Nat} {todo_state content : String}
    {priority : Nat} {tags : List String} {timestamps : HeadingTimestamps}
    {description : String} {properties : List (String × String)}
    {lines : List String} {marker : String}
    (hm : priority_str priority = .ok marker)
    (hok : get_heading_lines heading_level todo_state content priority tags
      timestamps description properties = .ok lines) :
    (heading_stars heading_level ++ " " ++ todo_state_str todo_state ++ marker
      ++ content ++ tags_str tags) ∈ lines := by
  rw [get_heading_lines] at hok
  simp only [hm, ok_bind, Except.ok.injEq] at hok
  subst hok
  exact List.mem_cons_self _ _

theorem tags_str_archived : tags_str ["ARCHIVED"] = " :ARCHIVED:" := rfl

theorem project_heading_archived_tag {p : Project} {l : Nat} {h : String}
    (ha : p.is_archived = true) (hok : get_project_root_heading p l = .ok h) :
    (" :ARCHIVED:" : String).data <:+: h.data := by
  rw [get_project_root_heading] at hok
  obtain ⟨lines, hG, h2⟩ := bind_ok_inv hok
  obtain rfl : _ = h := (Except.ok.injEq _ _).mp h2
  have hm0 : priority_str 1 = Except.ok "" := rfl
  have hfirst := get_heading_lines_head hm0 hG
  have htags : project_heading_tags p = ["ARCHIVED"] := by
    rw [project_heading_tags, if_pos ha]
  rw [htags, tags_str_archived] at hfirst
  refine infix_heading_of_mem_line hfirst ?_
  refine List.IsSuffix.isInfix ?_
  refine ⟨(heading_stars l ++ " " ++ todo_state_str "" ++ "" ++ p.name).data, ?_⟩
  simp [data_append, List.append_assoc]

theorem section_heading_archived_tag {fmt : TZFormatter} {state : TodoistState}
    {s : Section} {l : Nat} {h : String}
    (ha : s.is_archived = true) (hok : get_section_heading fmt state s l = .ok h) :
    (" :ARCHIVED:" : String).data <:+: h.data := by
  obtain ⟨lines, hG, rfl⟩ := get_section_heading_parts hok
  have hm0 : priority_str 1 = Except.ok "" := rfl
  have hfirst := get_heading_lines_head hm0 hG
  have htags : section_heading_tags s = ["ARCHIVED"] := by
    rw [section_heading_tags, if_pos ha]
  rw [htags, tags_str_archived] at hfirst
  refine infix_heading_of_mem_line hfirst ?_
  refine List.IsSuffix.isInfix ?_
  refine ⟨(heading_stars l ++ " " ++ todo_state_str "" ++ "" ++ s.name).data, ?_⟩
  simp [data_append, List.append_assoc]

/-- C5: archived filtering.  Every successful `generate_all_headings` run
has a matching trace run that renders back to the same headings, in which:
with `include_archived = false` no archived project or section is emitted
and every emitted item belongs to a non-archived project; with
`include_archived = true` every project is emitted and so is every section
of an existing project; the `ARCHIVED` tag list entry is present exactly
for archived projects/sections, and the rendered heading of an archived
project or section carries the `:ARCHIVED:` tag text. -/
theorem claim_C5 {fmt : TZFormatter} {fuel : Nat} {state : TodoistState}
    {ia : Bool} {out : List String}
    (h : generate_all_headings fmt fuel state ia = .ok out) :
    ∃ tr, trace_all_headings fuel state ia = .ok tr ∧
      renderEvs fmt state (dictLookup (fun lb => lb.name) state.labels) tr
        = .ok out ∧
      (ia = false →
        (∀ p l, Ev.proj p l ∈ tr → p.is_archived = false) ∧
        (∀ s l, Ev.sec s l ∈ tr → s.is_archived = false) ∧
        (∀ i l, Ev.item i l ∈ tr → ∃ p, p ∈ state.projects ∧
          p.is_archived = false ∧ i.project_id = p.id)) ∧
      (ia = true →
        (∀ p, p ∈ state.projects → ∃ l, Ev.proj p l ∈ tr) ∧
        (∀ s p, s ∈ state.sections → p ∈ state.projects → s.project_id = p.id →
          ∃ l, Ev.sec s l ∈ tr)) ∧
      (∀ p : Project, "ARCHIVED" ∈ project_heading_tags p ↔ p.is_archived = true) ∧
      (∀ s : Section, "ARCHIVED" ∈ section_heading_tags s ↔ s.is_archived = true) ∧
      (∀ (p : Project) (l : Nat) (hstr : String), p.is_archived = true →
        get_project_root_heading p l = .ok hstr →
        (" :ARCHIVED:" : String).data <:+: hstr.data) ∧
      (∀ (s : Section) (l : Nat) (hstr : String), s.is_archived = true →
        get_section_heading fmt state s l = .ok hstr →
        (" :ARCHIVED:" : String).data <:+: hstr.data) := by
  obtain ⟨tr, htr, hr⟩ := gen_all_trace h
  rw [trace_all_headings] at htr
  refine ⟨tr, by rw [trace_all_headings]; exact htr, hr, ?_, ?_, ?_, ?_,
    fun p l hstr => project_heading_archived_tag,
    fun s l hstr => section_heading_archived_tag⟩
  · rintro rfl
    refine ⟨?_, ?_, ?_⟩
    · intro p l hp
      obtain ⟨q, hq, trP, hblk, heP⟩ := exceptFlatMap_mem_src htr _ hp
      rcases trace_project_block_ok hblk with ⟨rfl, _, _⟩ |
        ⟨hskipF, level, sub, hsub, rfl⟩
      · exact absurd heP (List.not_mem_nil _)
      · rcases List.mem_cons.mp heP with heq | heP
        · obtain ⟨rfl, rfl⟩ := Ev.proj.inj heq
          simpa using hskipF
        · obtain ⟨x, _, hxe⟩ := List.mem_map.mp heP
          cases x with
          | inl s0 => exact absurd hxe (by simp)
          | inr q0 => exact absurd hxe (by simp)
    · intro s l hs
      obtain ⟨q, hq, trP, hblk, heP⟩ := exceptFlatMap_mem_src htr _ hs
      rcases trace_project_block_ok hblk with ⟨rfl, _, _⟩ |
        ⟨hskipF, level, sub, hsub, rfl⟩
      · exact absurd heP (List.not_mem_nil _)
      · rcases List.mem_cons.mp heP with heq | heP
        · exact absurd heq (by simp)
        · obtain ⟨x, hx, hxe⟩ := List.mem_map.mp heP
          cases x with
          | inr q0 => exact absurd hxe (by simp)
          | inl s0 =>
            obtain ⟨rfl, rfl⟩ : s0 = s ∧ level + 1 = l := by
              constructor <;> [exact (Ev.sec.inj hxe).1; exact (Ev.sec.inj hxe).2]
            obtain ⟨tr0, trS, h0, hS, rfl⟩ := trace_sub_parts hsub
            rcases List.mem_append.mp hx with hx | hx
            · obtain ⟨y, _, hy⟩ := List.mem_map.mp hx
              exact absurd hy (by simp)
            · have hsm : s0 ∈ (pySortByKey (fun s2 => s2.section_order)
                  (state.sections.filter (fun s2 => s2.project_id = q.id))).filter
                    (fun s2 => false || !s2.is_archived) := by
                rw [← trace_blocks_sections hS]
                exact List.mem_filterMap.mpr ⟨Sum.inl s0, hx, rfl⟩
              have := (List.mem_filter.mp hsm).2
              revert this
              cases s0.is_archived <;> simp
    · intro i l hi
      obtain ⟨q, hq, trP, hblk, heP⟩ := exceptFlatMap_mem_src htr _ hi
      rcases trace_project_block_ok hblk with ⟨rfl, _, _⟩ |
        ⟨hskipF, level, sub, hsub, rfl⟩
      · exact absurd heP (List.not_mem_nil _)
      · rcases List.mem_cons.mp heP with heq | heP
        · exact absurd heq (by simp)
        · obtain ⟨x, hx, hxe⟩ := List.mem_map.mp heP
          cases x with
          | inl s0 => exact absurd hxe (by simp)
          | inr q0 =>
            obtain ⟨rfl, rfl⟩ : q0.1 = i ∧ q0.2 = l := by
              constructor <;> [exact (Ev.item.inj hxe).1; exact (Ev.item.inj hxe).2]
            have hm := trace_sub_carrier hsub q0 (by simpa using hx)
            obtain ⟨hmem, hpid⟩ := List.mem_filter.mp hm
            exact ⟨q, hq, by simpa using hskipF, by simpa using hpid⟩
  · rintro rfl
    constructor
    · intro p hp
      obtain ⟨pre, post, blk, hout, hblk⟩ := exceptFlatMap_ok_of_mem htr hp
      rcases trace_project_block_ok hblk with ⟨_, hfalse, _⟩ |
        ⟨hskipF, level, sub, hsub, rfl⟩
      · exact absurd hfalse (by simp)
      · refine ⟨level, ?_⟩
        rw [hout]
        exact List.mem_append_left _
          (List.mem_append_right _ (List.mem_cons_self _ _))
    · intro s p hs hp hproj
      obtain ⟨pre, post, blk, hout, hblk⟩ := exceptFlatMap_ok_of_mem htr hp
      rcases trace_project_block_ok hblk with ⟨_, hfalse, _⟩ |
        ⟨hskipF, level, sub, hsub, rfl⟩
      · exact absurd hfalse (by simp)
      · obtain ⟨tr0, trS, h0, hS, rfl⟩ := trace_sub_parts hsub
        have hsm : s ∈ (pySortByKey (fun s2 => s2.section_order)
            (state.sections.filter (fun s2 => s2.project_id = p.id))).filter
              (fun s2 => true || !s2.is_archived) := by
          refine List.mem_filter.mpr ⟨?_, by simp⟩
          exact mem_pySortByKey.mpr (List.mem_filter.mpr ⟨hs, by simp [hproj]⟩)
        rw [← trace_blocks_sections hS] at hsm
        obtain ⟨e, he, hfe⟩ := List.mem_filterMap.mp hsm
        have hsec : Sum.inl s ∈ trS := by
          cases e with
          | inl s0 =>
            obtain rfl : s0 = s := by simpa using hfe
            exact he
          | inr q0 => exact absurd hfe (by simp)
        refine ⟨level + 1, ?_⟩
        rw [hout]
        refine List.mem_append_left _ (List.mem_append_right _ ?_)
        exact List.mem_cons_of_mem _
          (List.mem_map_of_mem _ (List.mem_append_right _ hsec))
  · intro p
    cases hp : p.is_archived <;> simp [project_heading_tags, hp]
  · intro s
    cases hs : s.is_archived <;> simp [section_heading_tags, hs]

set_option maxRecDepth 4000 in
/-- Witness for C5: with `include_archived = true` on a concrete record
set, the archived project and the archived section are both emitted, and
the `ARCHIVED` tag marks exactly the archived records. -/
theorem claim_C5_witness :
    generate_all_headings fmtW 10 stC5w true = .ok outC5w ∧
    ∃ tr, trace_all_headings 10 stC5w true = .ok tr ∧
      (∃ l, Ev.proj pC5a l ∈ tr) ∧
      (∃ l, Ev.sec sC5a l ∈ tr) ∧
      ("ARCHIVED" ∈ project_heading_tags pC5a ↔ pC5a.is_archived = true) ∧
      ("ARCHIVED" ∈ section_heading_tags sC5n ↔ sC5n.is_archived = true) := by
  have h : generate_all_headings fmtW 10 stC5w true = .ok outC5w := by decide
  obtain ⟨tr, htr, hr, habs, hpres, htagp, htags, hstrp, hstrs⟩ := claim_C5 h
  obtain ⟨hp, hsec⟩ := hpres rfl
  exact ⟨h, tr, htr, hp pC5a (by decide),
    hsec sC5a pC5n (by decide) (by decide) rfl, htagp pC5a, htags sC5n⟩

end Todoist
